import Mathlib

/-!
# The four-way set-associative cache model of `cache.c`

A shallow embedding of the cache part of `src/cache.c` (lines 74-196): the
global arrays `plru_state`, `valid`, `dirty`, `tag`, the two constant tables
`plru_bank` and `next_state`, the three counters, and the routines
`cache_init` and `cache_access`.

Conventions.
* A C `unsigned int` is a natural number; every arithmetic step that can
  leave the 32-bit range is reduced modulo `2 ^ 32` where the C code wraps
  (`address << 2`, `plru_state[..] << 2`, the `++` on the counters).
* The global arrays have exactly the shape of their C declaration
  (`Fin 4 → Fin 32 → Nat` for `unsigned int valid[4][32]`).  Indices computed
  by the program are plain numbers, so arrays are read and written through
  `rd1`/`rd2`/`wr1`/`wr2`.  A read outside the declared bounds has no
  defined value in C; the embedding is total and yields `0` there, and a
  write outside the bounds changes nothing.
* `cache_access_checked` is the same routine with every array and table
  access checked: it has no result as soon as one index is out of range.  It
  agrees with `cache_access` whenever the addressed set's PLRU state is in
  0..7, which holds in every state reached from `cache_init`.
-/

namespace CacheSim

/-- The constant `#define LINES_PER_BANK 32` (line 75). -/
abbrev LINES_PER_BANK : Nat := 32

/-- The number of values of a C `unsigned int`. -/
abbrev UINT_RANGE : Nat := 2 ^ 32

/-- The global variables of lines 77-109 that change while the program runs. -/
@[ext]
structure Cache where
  /-- current state for each set -/
  plru_state : Fin LINES_PER_BANK → Nat
  /-- valid bit for each line -/
  valid : Fin 4 → Fin LINES_PER_BANK → Nat
  /-- dirty bit for each line -/
  dirty : Fin 4 → Fin LINES_PER_BANK → Nat
  /-- tag bits for each line -/
  tag : Fin 4 → Fin LINES_PER_BANK → Nat
  /-- counter -/
  hits : Nat
  /-- counter -/
  misses : Nat
  /-- counter -/
  write_backs : Nat

/-- Table for bank replacement choice based on state (lines 87-89). -/
def plru_bank : List Nat := [0, 0, 1, 1, 2, 3, 2, 3]

/-- Table for next state based on state and bank reference, indexed by
`(4*state)+bank` (lines 91-104). -/
def next_state : List Nat :=
  [6, 4, 1, 0,
   7, 5, 1, 0,
   6, 4, 3, 2,
   7, 5, 3, 2,
   6, 4, 1, 0,
   7, 5, 1, 0,
   6, 4, 3, 2,
   7, 5, 3, 2]

/-- The C expression `a[i]` for a one-dimensional array of `n` cells. -/
def rd1 {n : Nat} (a : Fin n → Nat) (i : Nat) : Nat :=
  if h : i < n then a ⟨i, h⟩ else 0

/-- The C assignment `a[i] = v` for a one-dimensional array of `n` cells. -/
def wr1 {n : Nat} (a : Fin n → Nat) (i v : Nat) : Fin n → Nat :=
  fun j => if j.val = i then v else a j

/-- The C expression `a[w][i]` for a two-dimensional array. -/
def rd2 {m n : Nat} (a : Fin m → Fin n → Nat) (w i : Nat) : Nat :=
  if h : w < m ∧ i < n then a ⟨w, h.1⟩ ⟨i, h.2⟩ else 0

/-- The C assignment `a[w][i] = v` for a two-dimensional array. -/
def wr2 {m n : Nat} (a : Fin m → Fin n → Nat) (w i v : Nat) : Fin m → Fin n → Nat :=
  fun w' i' => if w'.val = w ∧ i'.val = i then v else a w' i'

/-- The C statement `x++` on an `unsigned int`. -/
def incr (x : Nat) : Nat := (x + 1) % UINT_RANGE

/-- One pass of the loop body of `cache_init` (lines 114-118) for index `i`. -/
def cache_init_body (c : Cache) (i : Nat) : Cache :=
  { c with
    plru_state := wr1 c.plru_state i 0
    valid := wr2 (wr2 (wr2 (wr2 c.valid 0 i 0) 1 i 0) 2 i 0) 3 i 0
    dirty := wr2 (wr2 (wr2 (wr2 c.dirty 0 i 0) 1 i 0) 2 i 0) 3 i 0
    tag := wr2 (wr2 (wr2 (wr2 c.tag 0 i 0) 1 i 0) 2 i 0) 3 i 0 }

/-- The routine `cache_init` (lines 111-121): the loop over `i = 0 .. LINES_PER_BANK-1`,
then the three counters. -/
def cache_init (c : Cache) : Cache :=
  let c := (List.range LINES_PER_BANK).foldl cache_init_body c
  { c with hits := 0, misses := 0, write_backs := 0 }

/-- Line 140: `address = address << 2`, the byte address as an `unsigned int`. -/
def byte_address (address : Nat) : Nat := (address <<< 2) % UINT_RANGE

/-- Line 142: `addr_index = (address >> 5) & 0x1f`, of the word address given
to `cache_access`. -/
def addr_index (address : Nat) : Nat := (byte_address address >>> 5) &&& 0x1f

/-- Line 143: `addr_tag = address >> 10`, of the word address given to
`cache_access`. -/
def addr_tag (address : Nat) : Nat := byte_address address >>> 10

/-- The hit test of lines 147, 153, 159, 165 for bank `w`:
`valid[w][addr_index] && (addr_tag == tag[w][addr_index])`. -/
def bank_hit (c : Cache) (index tg w : Nat) : Prop :=
  rd2 c.valid w index ≠ 0 ∧ tg = rd2 c.tag w index

instance (c : Cache) (index tg w : Nat) : Decidable (bank_hit c index tg w) := by
  unfold bank_hit; infer_instance

/-- Lines 174-178: the bank chosen for replacement on a miss. -/
def replacement_bank (c : Cache) (index : Nat) : Nat :=
  if rd2 c.valid 0 index = 0 then 0
  else if rd2 c.valid 1 index = 0 then 1
  else if rd2 c.valid 2 index = 0 then 2
  else if rd2 c.valid 3 index = 0 then 3
  else plru_bank.getD (rd1 c.plru_state index) 0

/-- Lines 172-186: the miss branch; gives the new globals and `bank`. -/
def miss (c : Cache) (index tg : Nat) : Cache × Nat :=
  let c := { c with misses := incr c.misses }
  let bank := replacement_bank c index
  let c :=
    if rd2 c.valid bank index ≠ 0 ∧ rd2 c.dirty bank index ≠ 0 then
      { c with write_backs := incr c.write_backs }
    else c
  ({ c with
     valid := wr2 c.valid bank index 1
     dirty := wr2 c.dirty bank index 0
     tag := wr2 c.tag bank index tg }, bank)

/-- Lines 145-187: the chain of hit tests and the miss branch; gives the new
globals and the local variable `bank` (bank that hit, or bank chosen for
replacement). -/
def probe (c : Cache) (index tg : Nat) : Cache × Nat :=
  if bank_hit c index tg 0 then ({ c with hits := incr c.hits }, 0)
  else if bank_hit c index tg 1 then ({ c with hits := incr c.hits }, 1)
  else if bank_hit c index tg 2 then ({ c with hits := incr c.hits }, 2)
  else if bank_hit c index tg 3 then ({ c with hits := incr c.hits }, 3)
  else miss c index tg

/-- Line 191: `plru_state[addr_index] = next_state[(plru_state[addr_index]<<2) | bank]`. -/
def update_plru (c : Cache) (index bank : Nat) : Cache :=
  { c with
    plru_state :=
      wr1 c.plru_state index
        (next_state.getD ((((rd1 c.plru_state index) <<< 2) % UINT_RANGE) ||| bank) 0) }

/-- The routine `cache_access` (lines 133-196); `address` is the incoming word address,
`type` is read (`= 0`) or write (`= 1`). -/
def cache_access (c : Cache) (address type : Nat) : Cache :=
  let r := probe c (addr_index address) (addr_tag address)
  let c := update_plru r.1 (addr_index address) r.2
  if type = 1 then { c with dirty := wr2 c.dirty r.2 (addr_index address) 1 } else c

/-- The value of the local variable `bank` at the end of
`cache_access c address _`: the bank that hit, or the bank chosen for
replacement. -/
def access_bank (c : Cache) (address : Nat) : Nat :=
  (probe c (addr_index address) (addr_tag address)).2

/-- Some bank of the addressed set is valid and holds the tag of `address`:
one of the four hit tests of `cache_access` succeeds. -/
def is_hit (c : Cache) (address : Nat) : Prop :=
  ∃ w, w < 4 ∧ bank_hit c (addr_index address) (addr_tag address) w

instance (c : Cache) (address : Nat) : Decidable (is_hit c address) := by
  unfold is_hit; infer_instance

/-- A trace of calls `cache_access a t`, run in order from `c`. -/
def run (c : Cache) (trace : List (Nat × Nat)) : Cache :=
  trace.foldl (fun c p => cache_access c p.1 p.2) c

/-- A cache with no valid line, every PLRU state `0`, and the given counter
values. -/
def empty_cache (h m w : Nat) : Cache :=
  { plru_state := fun _ => 0
    valid := fun _ _ => 0
    dirty := fun _ _ => 0
    tag := fun _ _ => 0
    hits := h
    misses := m
    write_backs := w }

/-- A cache whose set 0 is full: bank `k` of set 0 is valid and dirty and
holds tag `k + 1`; every other set is empty, every PLRU state is `0`, and the
counters have the given values. -/
def full_set0 (h m w : Nat) : Cache :=
  { plru_state := fun _ => 0
    valid := fun _ i => if i.val = 0 then 1 else 0
    dirty := fun _ i => if i.val = 0 then 1 else 0
    tag := fun k i => if i.val = 0 then k.val + 1 else 0
    hits := h
    misses := m
    write_backs := w }

/-- The C expression `a[i]`, with a value only when `i` is inside the array. -/
def rd1_checked {n : Nat} (a : Fin n → Nat) (i : Nat) : Option Nat :=
  if h : i < n then some (a ⟨i, h⟩) else none

/-- The C expression `a[w][i]`, with a value only when both indices are inside
the array. -/
def rd2_checked {m n : Nat} (a : Fin m → Fin n → Nat) (w i : Nat) : Option Nat :=
  if h : w < m ∧ i < n then some (a ⟨w, h.1⟩ ⟨i, h.2⟩) else none

/-- The C assignment `a[i] = v`, defined only when `i` is inside the array. -/
def wr1_checked {n : Nat} (a : Fin n → Nat) (i v : Nat) : Option (Fin n → Nat) :=
  if i < n then some (wr1 a i v) else none

/-- The C assignment `a[w][i] = v`, defined only when both indices are inside
the array. -/
def wr2_checked {m n : Nat} (a : Fin m → Fin n → Nat) (w i v : Nat) :
    Option (Fin m → Fin n → Nat) :=
  if w < m ∧ i < n then some (wr2 a w i v) else none

/-- The hit test `valid[w][addr_index] && (addr_tag == tag[w][addr_index])`
with every array access checked; the tag is read only when the valid bit is
set, as `&&` does. -/
def bank_hit_checked (c : Cache) (index tg w : Nat) : Option Bool :=
  (rd2_checked c.valid w index).bind fun v =>
    if v ≠ 0 then (rd2_checked c.tag w index).bind fun t => some (decide (tg = t))
    else some false

/-- Lines 174-178 with every array and table access checked. -/
def replacement_bank_checked (c : Cache) (index : Nat) : Option Nat :=
  (rd2_checked c.valid 0 index).bind fun v0 =>
    if v0 = 0 then some 0 else
  (rd2_checked c.valid 1 index).bind fun v1 =>
    if v1 = 0 then some 1 else
  (rd2_checked c.valid 2 index).bind fun v2 =>
    if v2 = 0 then some 2 else
  (rd2_checked c.valid 3 index).bind fun v3 =>
    if v3 = 0 then some 3 else
  (rd1_checked c.plru_state index).bind fun s => plru_bank[s]?

/-- Lines 172-186 with every array and table access checked. -/
def miss_checked (c : Cache) (index tg : Nat) : Option (Cache × Nat) :=
  (replacement_bank_checked c index).bind fun bank =>
  (rd2_checked c.valid bank index).bind fun v =>
  (if v ≠ 0 then rd2_checked c.dirty bank index else some 0).bind fun d =>
  (wr2_checked c.valid bank index 1).bind fun valid' =>
  (wr2_checked c.dirty bank index 0).bind fun dirty' =>
  (wr2_checked c.tag bank index tg).bind fun tag' =>
    some ({ c with
            misses := incr c.misses
            write_backs := if v ≠ 0 ∧ d ≠ 0 then incr c.write_backs else c.write_backs
            valid := valid'
            dirty := dirty'
            tag := tag' }, bank)

/-- Lines 145-187 with every array and table access checked. -/
def probe_checked (c : Cache) (index tg : Nat) : Option (Cache × Nat) :=
  (bank_hit_checked c index tg 0).bind fun h0 =>
    if h0 then some ({ c with hits := incr c.hits }, 0) else
  (bank_hit_checked c index tg 1).bind fun h1 =>
    if h1 then some ({ c with hits := incr c.hits }, 1) else
  (bank_hit_checked c index tg 2).bind fun h2 =>
    if h2 then some ({ c with hits := incr c.hits }, 2) else
  (bank_hit_checked c index tg 3).bind fun h3 =>
    if h3 then some ({ c with hits := incr c.hits }, 3) else
  miss_checked c index tg

/-- The routine `cache_access` (lines 133-196) with every array and table
access checked: the result is `none` as soon as one index is outside its array
or table. -/
def cache_access_checked (c : Cache) (address type : Nat) : Option Cache :=
  (probe_checked c (addr_index address) (addr_tag address)).bind fun r =>
  (rd1_checked r.1.plru_state (addr_index address)).bind fun s =>
  (next_state[((s <<< 2) % UINT_RANGE) ||| r.2]?).bind fun s' =>
  (wr1_checked r.1.plru_state (addr_index address) s').bind fun plru' =>
  (if type = 1 then wr2_checked r.1.dirty r.2 (addr_index address) 1
    else some r.1.dirty).bind fun dirty' =>
    some { r.1 with plru_state := plru', dirty := dirty' }

/-- The number of cells of a `[4][LINES_PER_BANK]` array that are not zero. -/
def count_set (a : Fin 4 → Fin LINES_PER_BANK → Nat) : Nat :=
  ∑ p : Fin 4 × Fin LINES_PER_BANK, if a p.1 p.2 ≠ 0 then 1 else 0

/-- The number of lines currently valid, over all 4 ways and 32 sets. -/
def valid_count (c : Cache) : Nat := count_set c.valid

/-- The number of lines currently dirty, over all 4 ways and 32 sets. -/
def dirty_count (c : Cache) : Nat := count_set c.dirty

/-- The number of accesses of a trace with `type == 1`. -/
def write_count (trace : List (Nat × Nat)) : Nat :=
  (trace.filter fun p => p.2 = 1).length

/-- Set `i` during a cold fill: its banks `0 .. k-1` are valid and bank `w`
of them holds tag `G w`, and its banks `k .. 3` are invalid. -/
def cold_set (c : Cache) (i k : Nat) (G : Nat → Nat) : Prop :=
  ∀ w, w < 4 →
    (w < k → rd2 c.valid w i ≠ 0 ∧ rd2 c.tag w i = G w) ∧ (k ≤ w → rd2 c.valid w i = 0)

/-! ## Arrays -/

theorem rd1_wr1 {n : Nat} (a : Fin n → Nat) (i v j : Nat) :
    rd1 (wr1 a i v) j = if j = i ∧ j < n then v else rd1 a j := by
  unfold rd1 wr1
  by_cases hj : j < n
  · by_cases hji : j = i
    · subst hji; simp [hj]
    · simp [hj, hji]
  · simp [hj]

theorem rd2_wr2 {m n : Nat} (a : Fin m → Fin n → Nat) (w i v w' i' : Nat) :
    rd2 (wr2 a w i v) w' i' = if (w' = w ∧ i' = i) ∧ (w' < m ∧ i' < n) then v else rd2 a w' i' := by
  unfold rd2 wr2
  by_cases hb : w' < m ∧ i' < n
  · by_cases he : w' = w ∧ i' = i
    · obtain ⟨rfl, rfl⟩ := he; simp [hb]
    · simp [hb, he]
  · simp [hb]

theorem rd1_fin {n : Nat} (a : Fin n → Nat) (j : Fin n) : rd1 a j.val = a j := by
  simp [rd1]

theorem rd2_fin {m n : Nat} (a : Fin m → Fin n → Nat) (w : Fin m) (j : Fin n) :
    rd2 a w.val j.val = a w j := by
  simp [rd2]

theorem ext1 {n : Nat} {a b : Fin n → Nat} (h : ∀ j, j < n → rd1 a j = rd1 b j) : a = b := by
  funext j
  have := h j.val j.isLt
  simpa [rd1_fin] using this

theorem ext2 {m n : Nat} {a b : Fin m → Fin n → Nat}
    (h : ∀ w j, w < m → j < n → rd2 a w j = rd2 b w j) : a = b := by
  funext w j
  have := h w.val j.val w.isLt j.isLt
  simpa [rd2_fin] using this

/-! ## Address decomposition -/

theorem byte_address_eq (a : Nat) : byte_address a = (4 * a) % 2 ^ 32 := by
  unfold byte_address
  rw [Nat.shiftLeft_eq]
  norm_num [Nat.mul_comm]

theorem addr_index_eq (a : Nat) : addr_index a = (byte_address a / 32) % 32 := by
  unfold addr_index
  rw [Nat.shiftRight_eq_div_pow]
  exact Nat.and_pow_two_sub_one_eq_mod _ 5

theorem addr_tag_eq (a : Nat) : addr_tag a = byte_address a / 1024 := by
  unfold addr_tag
  rw [Nat.shiftRight_eq_div_pow]

theorem addr_index_lt (a : Nat) : addr_index a < 32 := by
  rw [addr_index_eq]
  exact Nat.mod_lt _ (by norm_num)

/-! ## The replacement tables -/

theorem plru_bank_lt (s : Nat) : plru_bank.getD s 0 < 4 := by
  by_cases h : s < 8
  · interval_cases s <;> decide
  · have : plru_bank.length ≤ s := by simp [plru_bank]; omega
    rw [List.getD_eq_default _ _ this]; norm_num

theorem replacement_bank_lt (c : Cache) (i : Nat) : replacement_bank c i < 4 := by
  unfold replacement_bank
  split_ifs <;> first | omega | exact plru_bank_lt _

/-! ## The hit tests and the miss branch -/

theorem is_hit_iff (c : Cache) (a : Nat) :
    is_hit c a ↔
      bank_hit c (addr_index a) (addr_tag a) 0 ∨ bank_hit c (addr_index a) (addr_tag a) 1 ∨
      bank_hit c (addr_index a) (addr_tag a) 2 ∨ bank_hit c (addr_index a) (addr_tag a) 3 := by
  unfold is_hit
  constructor
  · rintro ⟨w, hw, h⟩
    interval_cases w <;> simp [h]
  · rintro (h | h | h | h)
    · exact ⟨0, by norm_num, h⟩
    · exact ⟨1, by norm_num, h⟩
    · exact ⟨2, by norm_num, h⟩
    · exact ⟨3, by norm_num, h⟩

theorem probe_hit (c : Cache) (a : Nat) (h : is_hit c a) :
    (probe c (addr_index a) (addr_tag a)).1 = { c with hits := incr c.hits } ∧
    access_bank c a < 4 ∧
    bank_hit c (addr_index a) (addr_tag a) (access_bank c a) ∧
    ∀ w, w < access_bank c a → ¬ bank_hit c (addr_index a) (addr_tag a) w := by
  rw [is_hit_iff] at h
  unfold access_bank probe
  by_cases h0 : bank_hit c (addr_index a) (addr_tag a) 0
  · simp [h0]
  by_cases h1 : bank_hit c (addr_index a) (addr_tag a) 1
  · simp only [h0, h1, if_true, if_false, true_and]
    refine ⟨by norm_num, fun w hw => ?_⟩
    interval_cases w; exact h0
  by_cases h2 : bank_hit c (addr_index a) (addr_tag a) 2
  · simp only [h0, h1, h2, if_true, if_false, true_and]
    refine ⟨by norm_num, fun w hw => ?_⟩
    interval_cases w <;> assumption
  by_cases h3 : bank_hit c (addr_index a) (addr_tag a) 3
  · simp only [h0, h1, h2, h3, if_true, if_false, true_and]
    refine ⟨by norm_num, fun w hw => ?_⟩
    interval_cases w <;> assumption
  · simp [h0, h1, h2, h3] at h

theorem probe_miss (c : Cache) (a : Nat) (h : ¬ is_hit c a) :
    probe c (addr_index a) (addr_tag a) = miss c (addr_index a) (addr_tag a) := by
  rw [is_hit_iff] at h
  push_neg at h
  unfold probe
  simp [h.1, h.2.1, h.2.2.1, h.2.2.2]

theorem access_bank_miss (c : Cache) (a : Nat) (h : ¬ is_hit c a) :
    access_bank c a = replacement_bank c (addr_index a) := by
  unfold access_bank
  rw [probe_miss c a h]
  rfl

theorem access_bank_lt (c : Cache) (a : Nat) : access_bank c a < 4 := by
  by_cases h : is_hit c a
  · exact (probe_hit c a h).2.1
  · rw [access_bank_miss c a h]; exact replacement_bank_lt _ _

/-! ## The globals after one call of `cache_access` -/

theorem shift_or_bank (s b : Nat) (hb : b < 4) :
    ((s <<< 2) % UINT_RANGE) ||| b = (4 * s + b) % UINT_RANGE := by
  have h1 : (s <<< 2) % UINT_RANGE = 2 ^ 2 * (s % 2 ^ 30) := by
    rw [Nat.shiftLeft_eq]
    norm_num
    omega
  rw [h1, ← Nat.mul_add_lt_is_or (by norm_num; exact hb)]
  norm_num
  omega

theorem miss_eq (c : Cache) (i g : Nat) :
    miss c i g =
      ({ plru_state := c.plru_state
         valid := wr2 c.valid (replacement_bank c i) i 1
         dirty := wr2 c.dirty (replacement_bank c i) i 0
         tag := wr2 c.tag (replacement_bank c i) i g
         hits := c.hits
         misses := incr c.misses
         write_backs :=
           if rd2 c.valid (replacement_bank c i) i ≠ 0 ∧ rd2 c.dirty (replacement_bank c i) i ≠ 0
           then incr c.write_backs else c.write_backs }, replacement_bank c i) := by
  unfold miss
  have hb : replacement_bank { c with misses := incr c.misses } i = replacement_bank c i := rfl
  simp only [hb]
  split_ifs <;> rfl

theorem access_hits (c : Cache) (a t : Nat) :
    (cache_access c a t).hits =
      if is_hit c a then incr c.hits else c.hits := by
  by_cases h : is_hit c a
  · have h1 := (probe_hit c a h).1
    unfold cache_access update_plru
    split_ifs <;> simp [h1, h, access_bank]
  · have h1 := probe_miss c a h
    have h2 := access_bank_miss c a h
    unfold cache_access update_plru
    rw [h1, miss_eq]
    split_ifs <;> simp [h, h2]

theorem access_misses (c : Cache) (a t : Nat) :
    (cache_access c a t).misses =
      if is_hit c a then c.misses else incr c.misses := by
  by_cases h : is_hit c a
  · have h1 := (probe_hit c a h).1
    unfold cache_access update_plru
    split_ifs <;> simp [h1, h, access_bank]
  · have h1 := probe_miss c a h
    have h2 := access_bank_miss c a h
    unfold cache_access update_plru
    rw [h1, miss_eq]
    split_ifs <;> simp [h, h2]

theorem access_write_backs (c : Cache) (a t : Nat) :
    (cache_access c a t).write_backs =
      if ¬ is_hit c a ∧ rd2 c.valid (access_bank c a) (addr_index a) ≠ 0 ∧
          rd2 c.dirty (access_bank c a) (addr_index a) ≠ 0
      then incr c.write_backs else c.write_backs := by
  by_cases h : is_hit c a
  · have h1 := (probe_hit c a h).1
    unfold cache_access update_plru
    simp [h1, h]; split_ifs <;> rfl
  · have h1 := probe_miss c a h
    have h2 := access_bank_miss c a h
    unfold cache_access update_plru
    rw [h1, miss_eq]
    simp [h, h2]; split_ifs <;> rfl

theorem access_valid (c : Cache) (a t : Nat) :
    (cache_access c a t).valid =
      if is_hit c a then c.valid else wr2 c.valid (access_bank c a) (addr_index a) 1 := by
  by_cases h : is_hit c a
  · have h1 := (probe_hit c a h).1
    unfold cache_access update_plru
    split_ifs <;> simp [h1, h, access_bank]
  · have h1 := probe_miss c a h
    have h2 := access_bank_miss c a h
    unfold cache_access update_plru
    rw [h1, miss_eq]
    split_ifs <;> simp [h, h2]

theorem access_tag (c : Cache) (a t : Nat) :
    (cache_access c a t).tag =
      if is_hit c a then c.tag else wr2 c.tag (access_bank c a) (addr_index a) (addr_tag a) := by
  by_cases h : is_hit c a
  · have h1 := (probe_hit c a h).1
    unfold cache_access update_plru
    split_ifs <;> simp [h1, h, access_bank]
  · have h1 := probe_miss c a h
    have h2 := access_bank_miss c a h
    unfold cache_access update_plru
    rw [h1, miss_eq]
    split_ifs <;> simp [h, h2]

theorem access_dirty (c : Cache) (a t : Nat) :
    (cache_access c a t).dirty =
      if t = 1 then
        wr2 (if is_hit c a then c.dirty else wr2 c.dirty (access_bank c a) (addr_index a) 0)
          (access_bank c a) (addr_index a) 1
      else if is_hit c a then c.dirty else wr2 c.dirty (access_bank c a) (addr_index a) 0 := by
  by_cases h : is_hit c a
  · have h1 := (probe_hit c a h).1
    unfold cache_access update_plru
    split_ifs <;> simp [h1, h, access_bank]
  · have h1 := probe_miss c a h
    have h2 := access_bank_miss c a h
    unfold cache_access update_plru
    rw [h1, miss_eq]
    split_ifs <;> simp [h, h2]

theorem access_plru_state (c : Cache) (a t : Nat) :
    (cache_access c a t).plru_state =
      wr1 c.plru_state (addr_index a)
        (next_state.getD ((4 * rd1 c.plru_state (addr_index a) + access_bank c a) % UINT_RANGE) 0) := by
  rw [← shift_or_bank _ _ (access_bank_lt c a)]
  by_cases h : is_hit c a
  · have h1 := (probe_hit c a h).1
    unfold cache_access update_plru
    split_ifs <;> simp [h1, h, access_bank]
  · have h1 := probe_miss c a h
    have h2 := access_bank_miss c a h
    unfold cache_access update_plru
    rw [h1, miss_eq]
    split_ifs <;> simp [h, h2]

theorem incr_eq (x : Nat) : incr x = (x + 1) % 2 ^ 32 := rfl

theorem incr_of_lt (x : Nat) (h : x < 2 ^ 32 - 1) : incr x = x + 1 := by
  unfold incr
  exact Nat.mod_eq_of_lt (by norm_num at h ⊢; omega)

theorem replacement_bank_invalid (c : Cache) (i : Nat)
    (h : ∃ w, w < 4 ∧ rd2 c.valid w i = 0) :
    rd2 c.valid (replacement_bank c i) i = 0 ∧
      ∀ w, w < replacement_bank c i → rd2 c.valid w i ≠ 0 := by
  obtain ⟨w, hw, hw0⟩ := h
  unfold replacement_bank
  by_cases h0 : rd2 c.valid 0 i = 0
  · simp [h0]
  by_cases h1 : rd2 c.valid 1 i = 0
  · simp only [h0, h1, if_true, if_false]
    refine ⟨trivial, fun v hv => ?_⟩
    interval_cases v; exact h0
  by_cases h2 : rd2 c.valid 2 i = 0
  · simp only [h0, h1, h2, if_true, if_false]
    refine ⟨trivial, fun v hv => ?_⟩
    interval_cases v <;> assumption
  by_cases h3 : rd2 c.valid 3 i = 0
  · simp only [h0, h1, h2, h3, if_true, if_false]
    refine ⟨trivial, fun v hv => ?_⟩
    interval_cases v <;> assumption
  · interval_cases w <;> contradiction

theorem replacement_bank_full (c : Cache) (i : Nat)
    (h : ∀ w, w < 4 → rd2 c.valid w i ≠ 0) :
    replacement_bank c i = plru_bank.getD (rd1 c.plru_state i) 0 := by
  unfold replacement_bank
  simp [h 0, h 1, h 2, h 3]

theorem plru_bank_get (s : Nat) (h : s < 8) : plru_bank[s]? = some (plru_bank.getD s 0) := by
  interval_cases s <;> rfl

/-! ## `cache_init` -/

theorem init_loop (c : Cache) (n : Nat) :
    (∀ j, rd1 ((List.range n).foldl cache_init_body c).plru_state j
        = if j < n then 0 else rd1 c.plru_state j) ∧
    (∀ w j, rd2 ((List.range n).foldl cache_init_body c).valid w j
        = if j < n then 0 else rd2 c.valid w j) ∧
    (∀ w j, rd2 ((List.range n).foldl cache_init_body c).dirty w j
        = if j < n then 0 else rd2 c.dirty w j) ∧
    (∀ w j, rd2 ((List.range n).foldl cache_init_body c).tag w j
        = if j < n then 0 else rd2 c.tag w j) := by
  induction n with
  | zero => simp
  | succ n ih =>
    obtain ⟨ihp, ihv, ihd, iht⟩ := ih
    rw [List.range_succ, List.foldl_append]
    simp only [List.foldl_cons, List.foldl_nil, cache_init_body]
    refine ⟨?_, ?_, ?_, ?_⟩
    · intro j
      rw [rd1_wr1, ihp]
      by_cases h1 : j = n
      · subst h1; simp; intro h; simp [rd1, h]
      · by_cases h2 : j < n
        · have : j < n + 1 := by omega
          simp [h1, h2, this]
        · have : ¬ j < n + 1 := by omega
          simp [h1, h2, this]
    all_goals
      intro w j
      simp only [rd2_wr2]
      first | rw [ihv] | rw [ihd] | rw [iht]
      by_cases h1 : j = n
      · subst h1
        by_cases hw : w < 4
        · interval_cases w <;> simp <;> intro h <;> simp [rd2, h]
        · have e0 : w ≠ 0 := by omega
          have e1 : w ≠ 1 := by omega
          have e2 : w ≠ 2 := by omega
          have e3 : w ≠ 3 := by omega
          simp [e0, e1, e2, e3, rd2, hw]
      · by_cases h2 : j < n
        · have : j < n + 1 := by omega
          simp [h1, h2, this]
        · have : ¬ j < n + 1 := by omega
          simp [h1, h2, this]

theorem cache_init_eq (c : Cache) : cache_init c = empty_cache 0 0 0 := by
  obtain ⟨hp, hv, hd, ht⟩ := init_loop c LINES_PER_BANK
  unfold cache_init
  apply Cache.ext
  · apply ext1
    intro j hj
    simp only [hp, if_pos hj]
    simp [empty_cache, rd1]
  · apply ext2
    intro w j hw hj
    simp only [hv, if_pos hj]
    simp [empty_cache, rd2]
  · apply ext2
    intro w j hw hj
    simp only [hd, if_pos hj]
    simp [empty_cache, rd2]
  · apply ext2
    intro w j hw hj
    simp only [ht, if_pos hj]
    simp [empty_cache, rd2]
  · rfl
  · rfl
  · rfl

/-! ## Traces and accesses to other sets -/

theorem run_nil (c : Cache) : run c [] = c := rfl

theorem run_cons (c : Cache) (p : Nat × Nat) (tr : List (Nat × Nat)) :
    run c (p :: tr) = run (cache_access c p.1 p.2) tr := rfl

theorem run_append (c : Cache) (tr tr' : List (Nat × Nat)) :
    run c (tr ++ tr') = run (run c tr) tr' := by
  unfold run
  exact List.foldl_append _ _ _ _

theorem access_other_plru (c : Cache) (a t i : Nat) (h : addr_index a ≠ i) :
    rd1 (cache_access c a t).plru_state i = rd1 c.plru_state i := by
  rw [access_plru_state, rd1_wr1, if_neg (by intro hh; exact h hh.1.symm)]

theorem run_other_plru (i : Nat) (tr : List (Nat × Nat)) :
    ∀ c : Cache, (∀ p ∈ tr, addr_index p.1 ≠ i) →
      rd1 (run c tr).plru_state i = rd1 c.plru_state i := by
  induction tr with
  | nil => intro c _; rfl
  | cons p tr ih =>
    intro c h
    rw [run_cons, ih _ (fun q hq => h q (List.mem_cons_of_mem _ hq))]
    exact access_other_plru c p.1 p.2 i (h p (List.mem_cons_self _ _))

/-! ## The bank an access touches -/

theorem access_bank_of_least (c : Cache) (a b : Nat) (hb : b < 4)
    (hh : bank_hit c (addr_index a) (addr_tag a) b)
    (hl : ∀ w, w < b → ¬ bank_hit c (addr_index a) (addr_tag a) w) :
    is_hit c a ∧ access_bank c a = b := by
  have hit : is_hit c a := ⟨b, hb, hh⟩
  obtain ⟨-, -, h1, h2⟩ := probe_hit c a hit
  refine ⟨hit, ?_⟩
  rcases Nat.lt_trichotomy (access_bank c a) b with h | h | h
  · exact absurd h1 (hl _ h)
  · exact h
  · exact absurd hh (h2 _ h)

theorem victim_ne_touched (s b : Nat) (hs : s < 8) (hb : b < 4) :
    plru_bank.getD (next_state.getD (4 * s + b) 0) 0 ≠ b := by
  interval_cases s <;> interval_cases b <;> decide

theorem next_state_idem (s b : Nat) (hs : s < 8) (hb : b < 4) :
    next_state.getD (4 * next_state.getD (4 * s + b) 0 + b) 0 = next_state.getD (4 * s + b) 0 := by
  interval_cases s <;> interval_cases b <;> decide

theorem next_state_lt (n : Nat) : next_state.getD n 0 < 8 := by
  by_cases h : n < 32
  · interval_cases n <;> decide
  · have : next_state.length ≤ n := by simp [next_state]; omega
    rw [List.getD_eq_default _ _ this]; norm_num

theorem access_plru_at (c : Cache) (a t : Nat) (hs : rd1 c.plru_state (addr_index a) < 8) :
    rd1 (cache_access c a t).plru_state (addr_index a) =
      next_state.getD (4 * rd1 c.plru_state (addr_index a) + access_bank c a) 0 := by
  have hb := access_bank_lt c a
  rw [access_plru_state, rd1_wr1, if_pos ⟨rfl, addr_index_lt a⟩,
    Nat.mod_eq_of_lt (by norm_num; omega)]

/-! ## Cold fills -/

theorem cold_step (c : Cache) (i k : Nat) (G : Nat → Nat) (a t : Nat)
    (hc : cold_set c i k G) (hk : k < 4) (hi : addr_index a = i) (hg : addr_tag a = G k)
    (hnew : ∀ w, w < k → G w ≠ G k) :
    ¬ is_hit c a ∧ access_bank c a = k ∧ cold_set (cache_access c a t) i (k + 1) G ∧
    (cache_access c a t).hits = c.hits ∧
    (cache_access c a t).misses = incr c.misses ∧
    (cache_access c a t).write_backs = c.write_backs ∧
    rd2 (cache_access c a t).dirty k i = (if t = 1 then 1 else 0) ∧
    (∀ w, w ≠ k → rd2 (cache_access c a t).dirty w i = rd2 c.dirty w i) := by
  subst hi
  have hi := addr_index_lt a
  have hmiss : ¬ is_hit c a := by
    rintro ⟨w, hw, hv, ht⟩
    by_cases hwk : w < k
    · have := (hc w hw).1 hwk
      rw [hg, this.2] at ht
      exact hnew w hwk ht.symm
    · exact hv ((hc w hw).2 (by omega))
  have hbank : access_bank c a = k := by
    rw [access_bank_miss c a hmiss]
    have h1 := replacement_bank_invalid c (addr_index a) ⟨k, hk, (hc k hk).2 le_rfl⟩
    rcases Nat.lt_trichotomy (replacement_bank c (addr_index a)) k with h | h | h
    · exact absurd h1.1 ((hc _ (by omega)).1 h).1
    · exact h
    · exact absurd ((hc k hk).2 le_rfl) (h1.2 k h)
  refine ⟨hmiss, hbank, ?_, ?_, ?_, ?_, ?_, ?_⟩
  · intro w hw
    rw [access_valid, access_tag, if_neg hmiss, if_neg hmiss, hbank, rd2_wr2, rd2_wr2]
    constructor
    · intro hlt
      by_cases hwk : w = k
      · subst hwk; simp [hw, hi, hg]
      · have := (hc w hw).1 (by omega)
        simp [hwk, this]
    · intro hle
      have hwk : w ≠ k := by omega
      simp [hwk]
      exact (hc w hw).2 (by omega)
  · rw [access_hits, if_neg hmiss]
  · rw [access_misses, if_neg hmiss]
  · rw [access_write_backs, hbank, if_neg]
    intro h
    exact h.2.1 ((hc k hk).2 le_rfl)
  · rw [access_dirty, hbank]
    split_ifs <;> rw [rd2_wr2] <;> simp [hk, hi]
  · intro w hw
    rw [access_dirty, hbank, if_neg hmiss]
    split_ifs
    · rw [rd2_wr2, if_neg (by tauto), rd2_wr2, if_neg (by tauto)]
    · rw [rd2_wr2, if_neg (by tauto)]

theorem cold_set_zero (c : Cache) (i : Nat) (G : Nat → Nat)
    (hinv : ∀ w, w < 4 → rd2 c.valid w i = 0) : cold_set c i 0 G :=
  fun w hw => ⟨fun h => absurd h (Nat.not_lt_zero w), fun _ => hinv w hw⟩

theorem incr4 (x : Nat) : incr (incr (incr (incr x))) = (x + 4) % 2 ^ 32 := by
  unfold incr
  norm_num

theorem cold_step_plru (c : Cache) (i k : Nat) (G : Nat → Nat) (a t s : Nat)
    (hc : cold_set c i k G) (hk : k < 4) (hi : addr_index a = i) (hg : addr_tag a = G k)
    (hnew : ∀ w, w < k → G w ≠ G k) (hs : rd1 c.plru_state i = s) (hs8 : s < 8) :
    rd1 (cache_access c a t).plru_state i = next_state.getD (4 * s + k) 0 := by
  have hb := (cold_step c i k G a t hc hk hi hg hnew).2.1
  subst hi
  rw [access_plru_at c a t (by rw [hs]; exact hs8), hs, hb]

theorem full_miss (c : Cache) (i : Nat) (G : Nat → Nat) (a : Nat)
    (hc : cold_set c i 4 G) (hi : addr_index a = i) (hnew : ∀ w, w < 4 → G w ≠ addr_tag a) :
    ¬ is_hit c a ∧ access_bank c a = plru_bank.getD (rd1 c.plru_state i) 0 ∧
      ∀ w, w < 4 → rd2 c.valid w i ≠ 0 := by
  subst hi
  have hfull : ∀ w, w < 4 → rd2 c.valid w (addr_index a) ≠ 0 :=
    fun w hw => ((hc w hw).1 hw).1
  have hmiss : ¬ is_hit c a := by
    rintro ⟨w, hw, -, ht⟩
    rw [((hc w hw).1 hw).2] at ht
    exact hnew w hw ht.symm
  exact ⟨hmiss, by rw [access_bank_miss c a hmiss, replacement_bank_full c _ hfull], hfull⟩

theorem empty_cache_invalid (h m x i : Nat) :
    ∀ w, w < 4 → rd2 (empty_cache h m x).valid w i = 0 := by
  intro w _
  simp [rd2, empty_cache]

theorem wr1_same {n : Nat} (p : Fin n → Nat) (i : Nat) : wr1 p i (rd1 p i) = p := by
  apply ext1
  intro j _
  rw [rd1_wr1]
  split_ifs with h
  · rw [h.1]
  · rfl

theorem hit_after_access (c : Cache) (a t : Nat) :
    bank_hit (cache_access c a t) (addr_index a) (addr_tag a) (access_bank c a) ∧
      ∀ w, w < access_bank c a →
        ¬ bank_hit (cache_access c a t) (addr_index a) (addr_tag a) w := by
  have hi := addr_index_lt a
  have hb := access_bank_lt c a
  unfold bank_hit
  rw [access_valid, access_tag]
  by_cases h : is_hit c a
  · obtain ⟨-, -, h1, h2⟩ := probe_hit c a h
    simp only [if_pos h]
    exact ⟨h1, h2⟩
  · simp only [if_neg h]
    constructor
    · rw [rd2_wr2, rd2_wr2]; simp [hb, hi]
    · intro w hw hh
      have hne : w ≠ access_bank c a := by omega
      rw [rd2_wr2, rd2_wr2, if_neg (by tauto), if_neg (by tauto)] at hh
      exact h ⟨w, by omega, hh⟩

/-! ## Invariants of `cache_access` -/

theorem run_invariant (P : Cache → Prop)
    (hstep : ∀ c a t, P c → P (cache_access c a t)) :
    ∀ (tr : List (Nat × Nat)) (c : Cache), P c → P (run c tr) := by
  intro tr
  induction tr with
  | nil => intro c h; exact h
  | cons p tr ih => intro c h; rw [run_cons]; exact ih _ (hstep c p.1 p.2 h)

theorem access_frame (c : Cache) (a t w j : Nat)
    (hne : ¬ (w = access_bank c a ∧ j = addr_index a)) :
    rd2 (cache_access c a t).valid w j = rd2 c.valid w j ∧
    rd2 (cache_access c a t).dirty w j = rd2 c.dirty w j ∧
    rd2 (cache_access c a t).tag w j = rd2 c.tag w j := by
  refine ⟨?_, ?_, ?_⟩
  · rw [access_valid]
    split_ifs
    · rfl
    · rw [rd2_wr2, if_neg (by tauto)]
  · rw [access_dirty]
    split_ifs
    · rw [rd2_wr2, if_neg (by tauto)]
    · rw [rd2_wr2, if_neg (by tauto), rd2_wr2, if_neg (by tauto)]
    · rfl
    · rw [rd2_wr2, if_neg (by tauto)]
  · rw [access_tag]
    split_ifs
    · rfl
    · rw [rd2_wr2, if_neg (by tauto)]

theorem access_touched_valid (c : Cache) (a t : Nat) :
    rd2 (cache_access c a t).valid (access_bank c a) (addr_index a) ≠ 0 :=
  (hit_after_access c a t).1.1

theorem access_touched_tag (c : Cache) (a t : Nat) :
    rd2 (cache_access c a t).tag (access_bank c a) (addr_index a) = addr_tag a :=
  (hit_after_access c a t).1.2.symm

theorem access_valid_mono (c : Cache) (a t w j : Nat) (h : rd2 c.valid w j ≠ 0) :
    rd2 (cache_access c a t).valid w j ≠ 0 := by
  by_cases hp : w = access_bank c a ∧ j = addr_index a
  · rw [hp.1, hp.2]; exact access_touched_valid c a t
  · rw [(access_frame c a t w j hp).1]; exact h

theorem rd2_mk {m n : Nat} (a : Fin m → Fin n → Nat) (w : Fin m) (i : Nat) (hi : i < n) :
    a w ⟨i, hi⟩ = rd2 a w.val i :=
  (rd2_fin a w ⟨i, hi⟩).symm

/-! ## Bounds of the array and table accesses -/

theorem rd1_checked_eq {n : Nat} (a : Fin n → Nat) (i : Nat) (h : i < n) :
    rd1_checked a i = some (rd1 a i) := by
  simp [rd1_checked, rd1, h]

theorem rd2_checked_eq {m n : Nat} (a : Fin m → Fin n → Nat) (w i : Nat) (hw : w < m)
    (hi : i < n) : rd2_checked a w i = some (rd2 a w i) := by
  simp [rd2_checked, rd2, hw, hi]

theorem bank_hit_checked_eq (c : Cache) (i g w : Nat) (hw : w < 4) (hi : i < 32) :
    bank_hit_checked c i g w = some (decide (bank_hit c i g w)) := by
  unfold bank_hit_checked bank_hit
  rw [rd2_checked_eq _ _ _ hw hi, rd2_checked_eq _ _ _ hw hi]
  by_cases hv : rd2 c.valid w i = 0 <;> simp [hv]

theorem replacement_bank_checked_eq (c : Cache) (i : Nat) (hi : i < 32)
    (hs : rd1 c.plru_state i < 8) :
    replacement_bank_checked c i = some (replacement_bank c i) := by
  unfold replacement_bank_checked replacement_bank
  rw [rd2_checked_eq _ 0 _ (by norm_num) hi, rd2_checked_eq _ 1 _ (by norm_num) hi,
    rd2_checked_eq _ 2 _ (by norm_num) hi, rd2_checked_eq _ 3 _ (by norm_num) hi,
    rd1_checked_eq _ _ hi]
  simp only [Option.some_bind]
  split_ifs <;> first | rfl | exact plru_bank_get _ hs

theorem miss_checked_eq (c : Cache) (i g : Nat) (hi : i < 32) (hs : rd1 c.plru_state i < 8) :
    miss_checked c i g = some (miss c i g) := by
  have hb := replacement_bank_lt c i
  unfold miss_checked
  rw [replacement_bank_checked_eq c i hi hs, miss_eq]
  simp only [Option.some_bind]
  rw [rd2_checked_eq _ _ _ hb hi, rd2_checked_eq _ _ _ hb hi]
  simp only [Option.some_bind, wr2_checked, hb, hi, and_self, if_true]
  by_cases hv : rd2 c.valid (replacement_bank c i) i = 0 <;> simp [hv]

theorem probe_checked_eq (c : Cache) (i g : Nat) (hi : i < 32) (hs : rd1 c.plru_state i < 8) :
    probe_checked c i g = some (probe c i g) := by
  unfold probe_checked probe
  rw [bank_hit_checked_eq c i g 0 (by norm_num) hi, bank_hit_checked_eq c i g 1 (by norm_num) hi,
    bank_hit_checked_eq c i g 2 (by norm_num) hi, bank_hit_checked_eq c i g 3 (by norm_num) hi]
  simp only [Option.some_bind, decide_eq_true_eq]
  split_ifs <;> first | rfl | exact miss_checked_eq c i g hi hs

theorem probe_plru_state (c : Cache) (a : Nat) :
    (probe c (addr_index a) (addr_tag a)).1.plru_state = c.plru_state := by
  by_cases h : is_hit c a
  · rw [(probe_hit c a h).1]
  · rw [probe_miss c a h, miss_eq]

theorem next_state_get (n : Nat) (h : n < 32) : next_state[n]? = some (next_state.getD n 0) := by
  interval_cases n <;> rfl

theorem cache_access_checked_eq (c : Cache) (a t : Nat)
    (hs : rd1 c.plru_state (addr_index a) < 8) :
    cache_access_checked c a t = some (cache_access c a t) := by
  have hi := addr_index_lt a
  have hb : (probe c (addr_index a) (addr_tag a)).2 < 4 := access_bank_lt c a
  have hn : ((rd1 c.plru_state (addr_index a) <<< 2) % UINT_RANGE
      ||| (probe c (addr_index a) (addr_tag a)).2) < 32 := by
    rw [shift_or_bank _ _ hb, Nat.mod_eq_of_lt (by norm_num; omega)]
    omega
  unfold cache_access_checked cache_access update_plru
  rw [probe_checked_eq c _ _ hi hs]
  simp only [Option.some_bind, probe_plru_state]
  rw [rd1_checked_eq _ _ hi]
  simp only [Option.some_bind]
  rw [next_state_get _ hn]
  simp only [Option.some_bind, wr1_checked, wr2_checked, hi, hb, and_self, if_true]
  split_ifs <;> rfl

theorem plru_state_lt_step (c : Cache) (a t : Nat)
    (h : ∀ j : Fin LINES_PER_BANK, c.plru_state j < 8) :
    ∀ j : Fin LINES_PER_BANK, (cache_access c a t).plru_state j < 8 := by
  intro j
  rw [access_plru_state]
  unfold wr1
  split_ifs
  · exact next_state_lt _
  · exact h j

theorem plru_state_lt_reach (c0 : Cache) (tr : List (Nat × Nat)) :
    ∀ j : Fin LINES_PER_BANK, (run (cache_init c0) tr).plru_state j < 8 := by
  refine run_invariant (fun c => ∀ j : Fin LINES_PER_BANK, c.plru_state j < 8)
    plru_state_lt_step tr (cache_init c0) ?_
  rw [cache_init_eq]
  intro j
  show 0 < 8
  norm_num

/-! ## Counting valid and dirty lines -/

theorem count_set_wr2 (f : Fin 4 → Fin LINES_PER_BANK → Nat) (b i v : Nat) (hb : b < 4)
    (hi : i < LINES_PER_BANK) :
    count_set (wr2 f b i v) + (if rd2 f b i ≠ 0 then 1 else 0)
      = count_set f + (if v ≠ 0 then 1 else 0) := by
  unfold count_set
  rw [← Finset.add_sum_erase Finset.univ
      (fun p : Fin 4 × Fin LINES_PER_BANK => if wr2 f b i v p.1 p.2 ≠ 0 then 1 else 0)
      (Finset.mem_univ ((⟨b, hb⟩, ⟨i, hi⟩) : Fin 4 × Fin LINES_PER_BANK)),
    ← Finset.add_sum_erase Finset.univ
      (fun p : Fin 4 × Fin LINES_PER_BANK => if f p.1 p.2 ≠ 0 then 1 else 0)
      (Finset.mem_univ ((⟨b, hb⟩, ⟨i, hi⟩) : Fin 4 × Fin LINES_PER_BANK))]
  have e1 : wr2 f b i v ⟨b, hb⟩ ⟨i, hi⟩ = v := by simp [wr2]
  have e2 : rd2 f b i = f ⟨b, hb⟩ ⟨i, hi⟩ := by simp [rd2, hb, hi]
  have e3 : ∑ p ∈ Finset.univ.erase ((⟨b, hb⟩, ⟨i, hi⟩) : Fin 4 × Fin LINES_PER_BANK),
        (if wr2 f b i v p.1 p.2 ≠ 0 then 1 else 0)
      = ∑ p ∈ Finset.univ.erase ((⟨b, hb⟩, ⟨i, hi⟩) : Fin 4 × Fin LINES_PER_BANK),
        (if f p.1 p.2 ≠ 0 then 1 else 0) := by
    apply Finset.sum_congr rfl
    intro p hp
    have hne : p ≠ (⟨b, hb⟩, ⟨i, hi⟩) := Finset.ne_of_mem_erase hp
    have : ¬ (p.1.val = b ∧ p.2.val = i) := by
      rintro ⟨h1, h2⟩
      exact hne (Prod.ext (Fin.ext h1) (Fin.ext h2))
    simp [wr2, this]
  simp only [e1, e2, e3]
  omega

theorem count_set_wr2_zero (f : Fin 4 → Fin LINES_PER_BANK → Nat) (b i : Nat) (hb : b < 4)
    (hi : i < LINES_PER_BANK) :
    count_set (wr2 f b i 0) + (if rd2 f b i ≠ 0 then 1 else 0) = count_set f := by
  have := count_set_wr2 f b i 0 hb hi
  simpa using this

theorem count_set_wr2_one (f : Fin 4 → Fin LINES_PER_BANK → Nat) (b i : Nat) (hb : b < 4)
    (hi : i < LINES_PER_BANK) :
    count_set (wr2 f b i 1) + (if rd2 f b i ≠ 0 then 1 else 0) = count_set f + 1 := by
  have := count_set_wr2 f b i 1 hb hi
  simpa using this

theorem count_set_wr2_zero_one (f : Fin 4 → Fin LINES_PER_BANK → Nat) (b i : Nat) (hb : b < 4)
    (hi : i < LINES_PER_BANK) :
    count_set (wr2 (wr2 f b i 0) b i 1) = count_set (wr2 f b i 0) + 1 := by
  have := count_set_wr2_one (wr2 f b i 0) b i hb hi
  rw [rd2_wr2] at this
  simpa [hb, hi] using this

theorem count_set_eq_zero (f : Fin 4 → Fin LINES_PER_BANK → Nat) (h : count_set f = 0)
    (w : Fin 4) (j : Fin LINES_PER_BANK) : f w j = 0 := by
  unfold count_set at h
  have := (Finset.sum_eq_zero_iff.mp h) (w, j) (Finset.mem_univ _)
  by_contra hne
  simp [hne] at this

theorem incr_le (x : Nat) : incr x ≤ x + 1 := Nat.mod_le _ _

theorem write_count_cons (p : Nat × Nat) (tr : List (Nat × Nat)) :
    write_count (p :: tr) = (if p.2 = 1 then 1 else 0) + write_count tr := by
  unfold write_count
  by_cases h : p.2 = 1
  · simp [List.filter_cons, h]; omega
  · simp [List.filter_cons, h]

theorem dirty_step (c : Cache) (a t : Nat) :
    (cache_access c a t).write_backs + dirty_count (cache_access c a t)
      ≤ c.write_backs + dirty_count c + (if t = 1 then 1 else 0) := by
  have hb := access_bank_lt c a
  have hi := addr_index_lt a
  have hle := incr_le c.write_backs
  unfold dirty_count
  rw [access_write_backs, access_dirty]
  have k0 := count_set_wr2_zero c.dirty (access_bank c a) (addr_index a) hb hi
  have k1 := count_set_wr2_one c.dirty (access_bank c a) (addr_index a) hb hi
  have k2 := count_set_wr2_zero_one c.dirty (access_bank c a) (addr_index a) hb hi
  by_cases hit : is_hit c a
  · simp only [hit, not_true_eq_false, false_and, if_false, if_true]
    split_ifs <;> omega
  · simp only [hit, not_false_eq_true, true_and, if_false]
    split_ifs at k0 k1 k2 ⊢ <;> omega

theorem dirty_run (tr : List (Nat × Nat)) :
    ∀ c : Cache, (run c tr).write_backs + dirty_count (run c tr)
      ≤ c.write_backs + dirty_count c + write_count tr := by
  induction tr with
  | nil => intro c; simp [run_nil, write_count]
  | cons p tr ih =>
    intro c
    rw [run_cons, write_count_cons]
    have h1 := ih (cache_access c p.1 p.2)
    have h2 := dirty_step c p.1 p.2
    omega

theorem count_step (c : Cache) (a t : Nat) (hh : c.hits < 2 ^ 32 - 1)
    (hm : c.misses < 2 ^ 32 - 1) :
    (cache_access c a t).hits + (cache_access c a t).misses = c.hits + c.misses + 1 ∧
    (cache_access c a t).write_backs + valid_count (cache_access c a t) + c.misses
      ≤ c.write_backs + valid_count c + (cache_access c a t).misses := by
  have hb := access_bank_lt c a
  have hi := addr_index_lt a
  have hle := incr_le c.write_backs
  have k1 := count_set_wr2_one c.valid (access_bank c a) (addr_index a) hb hi
  unfold valid_count
  rw [access_write_backs, access_valid, access_hits, access_misses]
  by_cases hit : is_hit c a
  · simp only [hit, not_true_eq_false, false_and, if_false, if_true]
    rw [incr_of_lt _ hh]
    omega
  · simp only [hit, not_false_eq_true, true_and, if_false]
    rw [incr_of_lt _ hm]
    split_ifs at k1 ⊢ <;> omega

theorem count_run (tr : List (Nat × Nat)) :
    ∀ c : Cache, c.hits + c.misses + tr.length < 2 ^ 32 →
      (run c tr).hits + (run c tr).misses = c.hits + c.misses + tr.length ∧
      (run c tr).write_backs + valid_count (run c tr) + c.misses
        ≤ c.write_backs + valid_count c + (run c tr).misses := by
  induction tr with
  | nil => intro c _; simp [run_nil]
  | cons p tr ih =>
    intro c h
    rw [List.length_cons] at h ⊢
    rw [run_cons]
    obtain ⟨s1, s2⟩ := count_step c p.1 p.2 (by omega) (by omega)
    obtain ⟨r1, r2⟩ := ih (cache_access c p.1 p.2) (by omega)
    constructor <;> omega

theorem empty_cache_counts (h m x : Nat) :
    valid_count (empty_cache h m x) = 0 ∧ dirty_count (empty_cache h m x) = 0 := by
  unfold valid_count dirty_count count_set empty_cache
  simp

/-! ## The claims -/

/-- C1 (hit path, with the counter read as a C `unsigned int`): if some bank
of the addressed set is valid and holds the tag of the address, the access hits
the lowest-numbered such bank; `hits` becomes `(hits + 1) mod 2^32`, which is
`hits + 1` unless `hits` was `2^32 - 1`; `misses` and `write_backs` do not
change; no valid bit and no tag changes; the only dirty bit that can change is
that of the hit bank, which becomes 1 on a write (`type = 1`) and keeps its
value otherwise (in particular on a read, `type = 0`). -/
theorem hit_path (c : Cache) (address type : Nat) (h : is_hit c address) :
    (access_bank c address < 4 ∧
      bank_hit c (addr_index address) (addr_tag address) (access_bank c address) ∧
      ∀ w, w < access_bank c address →
        ¬ bank_hit c (addr_index address) (addr_tag address) w) ∧
    (cache_access c address type).hits = (c.hits + 1) % 2 ^ 32 ∧
    (c.hits < 2 ^ 32 - 1 → (cache_access c address type).hits = c.hits + 1) ∧
    (cache_access c address type).misses = c.misses ∧
    (cache_access c address type).write_backs = c.write_backs ∧
    (cache_access c address type).valid = c.valid ∧
    (cache_access c address type).tag = c.tag ∧
    (∀ w i, ¬ (w = access_bank c address ∧ i = addr_index address) →
      rd2 (cache_access c address type).dirty w i = rd2 c.dirty w i) ∧
    (type = 1 →
      rd2 (cache_access c address type).dirty (access_bank c address) (addr_index address) = 1) ∧
    (type = 0 →
      rd2 (cache_access c address type).dirty (access_bank c address) (addr_index address)
        = rd2 c.dirty (access_bank c address) (addr_index address)) ∧
    (type ≠ 1 → (cache_access c address type).dirty = c.dirty) := by
  have hp := probe_hit c address h
  have hi := addr_index_lt address
  refine ⟨hp.2, ?_, ?_, ?_, ?_, ?_, ?_, ?_, ?_, ?_, ?_⟩
  · rw [access_hits, if_pos h]; rfl
  · intro hlt; rw [access_hits, if_pos h]; exact incr_of_lt _ hlt
  · rw [access_misses, if_pos h]
  · rw [access_write_backs]; simp [h]
  · rw [access_valid, if_pos h]
  · rw [access_tag, if_pos h]
  · intro w i hne
    rw [access_dirty]
    split_ifs
    · rw [rd2_wr2]; simp [hne]
    · rfl
  · intro ht
    rw [access_dirty, if_pos ht, rd2_wr2]
    simp [hp.2.1, hi]
  · intro ht
    have : type ≠ 1 := by omega
    rw [access_dirty, if_neg this, if_pos h]
  · intro ht
    rw [access_dirty, if_neg ht, if_pos h]

/-- Witness for C1: a write that hits bank 0 of the full set 0. -/
theorem hit_path_witness :
    is_hit (full_set0 7 0 0) 256 ∧ (cache_access (full_set0 7 0 0) 256 1).hits = 8 ∧
      (cache_access (full_set0 7 0 0) 256 1).valid = (full_set0 7 0 0).valid :=
  ⟨by decide, (hit_path (full_set0 7 0 0) 256 1 (by decide)).2.2.1 (by decide),
    (hit_path (full_set0 7 0 0) 256 1 (by decide)).2.2.2.2.2.1⟩

/-- Counterexample to C1 as stated: with `hits = 2^32 - 1` a read that hits
bank 0 of set 0 leaves `hits = 0`, not `hits + 1`. -/
theorem hit_path_counterexample :
    is_hit (full_set0 4294967295 0 0) 256 ∧
      (full_set0 4294967295 0 0).hits = 4294967295 ∧
      (cache_access (full_set0 4294967295 0 0) 256 0).hits = 0 ∧
      (cache_access (full_set0 4294967295 0 0) 256 0).hits
        ≠ (full_set0 4294967295 0 0).hits + 1 := by
  decide

/-- C2 (miss path, with the counter read as a C `unsigned int`): if the PLRU
state of the addressed set is in 0..7 and no valid bank of the set holds the
tag of the address, then `misses` becomes `(misses + 1) mod 2^32`, which is
`misses + 1` unless `misses` was `2^32 - 1`, and `hits` does not change; the
bank filled is the lowest-numbered invalid bank of the set if there is one and
`plru_bank[plru_state[set]]` otherwise; afterwards that line is valid, holds
the tag of the address and is dirty exactly when `type = 1`; the valid bit,
dirty bit and tag of every other line are unchanged. -/
theorem miss_path (c : Cache) (address type : Nat)
    (hs : rd1 c.plru_state (addr_index address) < 8) (h : ¬ is_hit c address) :
    (cache_access c address type).misses = (c.misses + 1) % 2 ^ 32 ∧
    (c.misses < 2 ^ 32 - 1 → (cache_access c address type).misses = c.misses + 1) ∧
    (cache_access c address type).hits = c.hits ∧
    access_bank c address < 4 ∧
    ((∃ w, w < 4 ∧ rd2 c.valid w (addr_index address) = 0) →
      rd2 c.valid (access_bank c address) (addr_index address) = 0 ∧
      ∀ w, w < access_bank c address → rd2 c.valid w (addr_index address) ≠ 0) ∧
    ((∀ w, w < 4 → rd2 c.valid w (addr_index address) ≠ 0) →
      plru_bank[rd1 c.plru_state (addr_index address)]? = some (access_bank c address)) ∧
    rd2 (cache_access c address type).valid (access_bank c address) (addr_index address) = 1 ∧
    rd2 (cache_access c address type).tag (access_bank c address) (addr_index address)
      = addr_tag address ∧
    rd2 (cache_access c address type).dirty (access_bank c address) (addr_index address)
      = (if type = 1 then 1 else 0) ∧
    (rd2 (cache_access c address type).dirty (access_bank c address) (addr_index address) ≠ 0
      ↔ type = 1) ∧
    (∀ w i, ¬ (w = access_bank c address ∧ i = addr_index address) →
      rd2 (cache_access c address type).valid w i = rd2 c.valid w i ∧
      rd2 (cache_access c address type).dirty w i = rd2 c.dirty w i ∧
      rd2 (cache_access c address type).tag w i = rd2 c.tag w i) := by
  have hi := addr_index_lt address
  have hb := access_bank_lt c address
  have hd : rd2 (cache_access c address type).dirty (access_bank c address) (addr_index address)
      = (if type = 1 then 1 else 0) := by
    rw [access_dirty]
    split_ifs
    · rw [rd2_wr2]; simp [hb, hi]
    · rw [rd2_wr2]; simp [hb, hi]
  refine ⟨?_, ?_, ?_, hb, ?_, ?_, ?_, ?_, hd, ?_, ?_⟩
  · rw [access_misses, if_neg h]; rfl
  · intro hlt; rw [access_misses, if_neg h]; exact incr_of_lt _ hlt
  · rw [access_hits, if_neg h]
  · intro hex
    rw [access_bank_miss c address h]
    exact replacement_bank_invalid c _ hex
  · intro hall
    rw [access_bank_miss c address h, replacement_bank_full c _ hall]
    exact plru_bank_get _ hs
  · rw [access_valid, if_neg h, rd2_wr2]; simp [hb, hi]
  · rw [access_tag, if_neg h, rd2_wr2]; simp [hb, hi]
  · rw [hd]; split_ifs with ht <;> simp [ht]
  · intro w i hne
    refine ⟨?_, ?_, ?_⟩
    · rw [access_valid, if_neg h, rd2_wr2]; simp [hne]
    · rw [access_dirty]
      split_ifs
      · rw [rd2_wr2, if_neg (by tauto), rd2_wr2, if_neg (by tauto)]
      · rw [rd2_wr2, if_neg (by tauto)]
    · rw [access_tag, if_neg h, rd2_wr2]; simp [hne]

/-- Witness for C2: a read of tag 0 in the full set 0, which misses and
replaces bank `plru_bank[0] = 0`. -/
theorem miss_path_witness :
    rd1 (full_set0 0 5 0).plru_state (addr_index 0) < 8 ∧ ¬ is_hit (full_set0 0 5 0) 0 ∧
      (cache_access (full_set0 0 5 0) 0 0).misses = 6 ∧
      rd2 (cache_access (full_set0 0 5 0) 0 0).tag (access_bank (full_set0 0 5 0) 0) (addr_index 0)
        = addr_tag 0 :=
  ⟨by decide, by decide,
    (miss_path (full_set0 0 5 0) 0 0 (by decide) (by decide)).2.1 (by decide),
    (miss_path (full_set0 0 5 0) 0 0 (by decide) (by decide)).2.2.2.2.2.2.2.1⟩

/-- Counterexample to C2 as stated: with `misses = 2^32 - 1` a read that
misses in an empty cache (PLRU state 0) leaves `misses = 0`, not
`misses + 1`. -/
theorem miss_path_counterexample :
    rd1 (empty_cache 0 4294967295 0).plru_state (addr_index 0) < 8 ∧
      ¬ is_hit (empty_cache 0 4294967295 0) 0 ∧
      (empty_cache 0 4294967295 0).misses = 4294967295 ∧
      (cache_access (empty_cache 0 4294967295 0) 0 0).misses = 0 ∧
      (cache_access (empty_cache 0 4294967295 0) 0 0).misses
        ≠ (empty_cache 0 4294967295 0).misses + 1 := by
  decide

/-- C3 (write-back counting, with the counter read as a C `unsigned int`):
`cache_access` changes `write_backs` exactly when the access is a miss and the
line chosen for replacement was valid and dirty before the access, and then
`write_backs` becomes `(write_backs + 1) mod 2^32`, which is `write_backs + 1`
unless `write_backs` was `2^32 - 1`; in every other case (any hit, a miss
filling an invalid line, a miss replacing a clean line) `write_backs` is
unchanged. -/
theorem write_back_count (c : Cache) (address type : Nat) :
    (cache_access c address type).write_backs =
      (if ¬ is_hit c address ∧
          rd2 c.valid (access_bank c address) (addr_index address) ≠ 0 ∧
          rd2 c.dirty (access_bank c address) (addr_index address) ≠ 0
        then (c.write_backs + 1) % 2 ^ 32 else c.write_backs) ∧
    (c.write_backs < 2 ^ 32 - 1 →
      ((cache_access c address type).write_backs = c.write_backs + 1 ↔
        (¬ is_hit c address ∧
          rd2 c.valid (access_bank c address) (addr_index address) ≠ 0 ∧
          rd2 c.dirty (access_bank c address) (addr_index address) ≠ 0))) ∧
    ((cache_access c address type).write_backs ≠ c.write_backs ↔
      (¬ is_hit c address ∧
        rd2 c.valid (access_bank c address) (addr_index address) ≠ 0 ∧
        rd2 c.dirty (access_bank c address) (addr_index address) ≠ 0)) ∧
    (is_hit c address → (cache_access c address type).write_backs = c.write_backs) ∧
    (rd2 c.valid (access_bank c address) (addr_index address) = 0 →
      (cache_access c address type).write_backs = c.write_backs) ∧
    (rd2 c.dirty (access_bank c address) (addr_index address) = 0 →
      (cache_access c address type).write_backs = c.write_backs) := by
  refine ⟨?_, ?_, ?_, ?_, ?_, ?_⟩
  · rw [access_write_backs]; rfl
  swap
  · rw [access_write_backs]
    split_ifs with hc
    · have : incr c.write_backs ≠ c.write_backs := by
        unfold incr
        norm_num
        omega
      simp [this, hc]
    · simp [hc]
  · intro hlt
    rw [access_write_backs]
    split_ifs with hc
    · rw [incr_of_lt _ hlt]; simp [hc]
    · constructor
      · intro he; omega
      · intro hc'; exact absurd hc' hc
  · intro hh; rw [access_write_backs, if_neg (by tauto)]
  · intro hh; rw [access_write_backs, if_neg (by tauto)]
  · intro hh; rw [access_write_backs, if_neg (by tauto)]

/-- Counterexample to C3 as stated: with `write_backs = 2^32 - 1` a read that
misses in the full set 0 replaces the valid, dirty bank 0 and leaves
`write_backs = 0`, not `write_backs + 1`. -/
theorem write_back_count_counterexample :
    ¬ is_hit (full_set0 0 0 4294967295) 0 ∧
      rd2 (full_set0 0 0 4294967295).valid (access_bank (full_set0 0 0 4294967295) 0)
        (addr_index 0) ≠ 0 ∧
      rd2 (full_set0 0 0 4294967295).dirty (access_bank (full_set0 0 0 4294967295) 0)
        (addr_index 0) ≠ 0 ∧
      (full_set0 0 0 4294967295).write_backs = 4294967295 ∧
      (cache_access (full_set0 0 0 4294967295) 0 0).write_backs = 0 ∧
      (cache_access (full_set0 0 0 4294967295) 0 0).write_backs
        ≠ (full_set0 0 0 4294967295).write_backs + 1 := by
  decide

/-- C4 (address decomposition): for every word address `a`, with
`w = (4*a) mod 2^32` the widened address, `cache_access` uses bits [9:5] of `w`
as set index and bits [31:10] of `w` as tag; equivalently the index is
`floor(a/8) mod 32`, always in 0..31, and the tag is `floor((a mod 2^30)/256)`;
the fields are disjoint and recover the line address,
`tag*1024 + index*32 + (w mod 32) = w`; word addresses 0..7 all give index 0
and tag 0. -/
theorem address_decomposition (a : Nat) :
    byte_address a = (4 * a) % 2 ^ 32 ∧
    addr_index a = (byte_address a / 2 ^ 5) % 2 ^ 5 ∧
    addr_tag a = (byte_address a / 2 ^ 10) % 2 ^ 22 ∧
    addr_index a = (a / 8) % 32 ∧
    addr_index a < 32 ∧
    addr_tag a = (a % 2 ^ 30) / 256 ∧
    addr_tag a * 1024 + addr_index a * 32 + byte_address a % 32 = byte_address a ∧
    (a < 8 → addr_index a = 0 ∧ addr_tag a = 0) := by
  have hw := byte_address_eq a
  have hi := addr_index_eq a
  have ht := addr_tag_eq a
  norm_num at hw ⊢
  refine ⟨hw, ?_, ?_, ?_, ?_, ?_, ?_, ?_⟩ <;> omega

/-- C5 (PLRU update on every access): whether the access hits or misses,
`cache_access` sets `plru_state[index]` to `next_state[4*old_state + way]`
(the index computed in `unsigned int` arithmetic, which is `4*old_state + way`
itself whenever `old_state < 2^30`, and a cell of the table whenever
`old_state` is in 0..7), and leaves `plru_state[j]` unchanged for every other
set `j`.  Here `way` is the hit way on a hit: the lowest-numbered way of the
addressed set that is valid and holds the tag, and then no valid bit or tag
changes.  On a miss `way` is the way filled or replaced: the lowest-numbered
invalid way of the set if there is one and `plru_bank[old_state]` otherwise;
its line becomes valid with the tag of the address and no other line's valid
bit or tag changes.  In both cases line `way` of the set is valid and holds the
tag of the address after the access. -/
theorem plru_update (c : Cache) (address type : Nat) :
    access_bank c address < 4 ∧
    rd1 (cache_access c address type).plru_state (addr_index address) =
      next_state.getD
        ((4 * rd1 c.plru_state (addr_index address) + access_bank c address) % 2 ^ 32) 0 ∧
    (rd1 c.plru_state (addr_index address) < 2 ^ 30 →
      rd1 (cache_access c address type).plru_state (addr_index address) =
        next_state.getD (4 * rd1 c.plru_state (addr_index address) + access_bank c address) 0) ∧
    (rd1 c.plru_state (addr_index address) < 8 →
      next_state[4 * rd1 c.plru_state (addr_index address) + access_bank c address]? =
        some (rd1 (cache_access c address type).plru_state (addr_index address))) ∧
    (∀ j, j ≠ addr_index address →
      rd1 (cache_access c address type).plru_state j = rd1 c.plru_state j) ∧
    (∀ j : Fin LINES_PER_BANK, j.val ≠ addr_index address →
      (cache_access c address type).plru_state j = c.plru_state j) ∧
    (is_hit c address →
      bank_hit c (addr_index address) (addr_tag address) (access_bank c address) ∧
      (∀ w, w < access_bank c address →
        ¬ bank_hit c (addr_index address) (addr_tag address) w) ∧
      (cache_access c address type).valid = c.valid ∧
      (cache_access c address type).tag = c.tag) ∧
    (¬ is_hit c address →
      access_bank c address = replacement_bank c (addr_index address) ∧
      ((∃ w, w < 4 ∧ rd2 c.valid w (addr_index address) = 0) →
        rd2 c.valid (access_bank c address) (addr_index address) = 0 ∧
        ∀ w, w < access_bank c address → rd2 c.valid w (addr_index address) ≠ 0) ∧
      ((∀ w, w < 4 → rd2 c.valid w (addr_index address) ≠ 0) →
        access_bank c address = plru_bank.getD (rd1 c.plru_state (addr_index address)) 0) ∧
      rd2 (cache_access c address type).valid (access_bank c address) (addr_index address) = 1 ∧
      (∀ w i, ¬ (w = access_bank c address ∧ i = addr_index address) →
        rd2 (cache_access c address type).valid w i = rd2 c.valid w i ∧
        rd2 (cache_access c address type).tag w i = rd2 c.tag w i)) ∧
    (rd2 (cache_access c address type).valid (access_bank c address) (addr_index address) ≠ 0 ∧
      rd2 (cache_access c address type).tag (access_bank c address) (addr_index address)
        = addr_tag address) := by
  have hi := addr_index_lt address
  have hb := access_bank_lt c address
  have h1 : rd1 (cache_access c address type).plru_state (addr_index address) =
      next_state.getD
        ((4 * rd1 c.plru_state (addr_index address) + access_bank c address) % 2 ^ 32) 0 := by
    rw [access_plru_state, rd1_wr1, if_pos ⟨rfl, hi⟩]
  have h2 : rd1 c.plru_state (addr_index address) < 2 ^ 30 →
      rd1 (cache_access c address type).plru_state (addr_index address) =
        next_state.getD (4 * rd1 c.plru_state (addr_index address) + access_bank c address) 0 := by
    intro hs
    rw [h1, Nat.mod_eq_of_lt (by norm_num at hs ⊢; omega)]
  have h5 : ∀ j, j ≠ addr_index address →
      rd1 (cache_access c address type).plru_state j = rd1 c.plru_state j := by
    intro j hj
    rw [access_plru_state, rd1_wr1]; simp [hj]
  refine ⟨hb, h1, h2, ?_, h5, ?_, ?_, ?_, ?_⟩
  · intro hs
    rw [h2 (by norm_num; omega)]
    generalize rd1 c.plru_state (addr_index address) = s at hs ⊢
    generalize access_bank c address = b at hb ⊢
    interval_cases s <;> interval_cases b <;> rfl
  · intro j hj
    have := h5 j.val hj
    simpa [rd1_fin] using this
  · intro hit
    obtain ⟨-, -, q1, q2⟩ := probe_hit c address hit
    refine ⟨q1, q2, ?_, ?_⟩
    · rw [access_valid, if_pos hit]
    · rw [access_tag, if_pos hit]
  · intro hmiss
    refine ⟨access_bank_miss c address hmiss, ?_, ?_, ?_, ?_⟩
    · intro hex
      rw [access_bank_miss c address hmiss]
      exact replacement_bank_invalid c _ hex
    · intro hall
      rw [access_bank_miss c address hmiss, replacement_bank_full c _ hall]
    · rw [access_valid, if_neg hmiss, rd2_wr2]; simp [hb, hi]
    · intro w i hne
      obtain ⟨e1, -, e3⟩ := access_frame c address type w i hne
      exact ⟨e1, e3⟩
  · exact ⟨access_touched_valid c address type, access_touched_tag c address type⟩

/-- Witness for C5: in the full set 0 with PLRU state 0 a read of tag 2 hits
way 1, the lowest (and only) way holding that tag, and the state of set 0
becomes `next_state[4*0 + 1] = 4`. -/
theorem plru_update_witness :
    is_hit (full_set0 0 0 0) 512 ∧ access_bank (full_set0 0 0 0) 512 = 1 ∧
      bank_hit (full_set0 0 0 0) (addr_index 512) (addr_tag 512) 1 ∧
      rd1 (cache_access (full_set0 0 0 0) 512 0).plru_state (addr_index 512) = 4 :=
  ⟨by decide, by decide,
    ((plru_update (full_set0 0 0 0) 512 0).2.2.2.2.2.2.1 (by decide)).1,
    (plru_update (full_set0 0 0 0) 512 0).2.1⟩

/-- C6 (PLRU table pair consistency): for every state `s` in 0..7 and every
way `w` in 0..3 both lookups are inside the tables and the victim decoded from
the updated state is not the way just touched,
`plru_bank[next_state[4*s + w]] ≠ w`; it lies in the other pair of ways:
touching way 0 or 1 gives a victim in {2,3}, touching way 2 or 3 gives a
victim in {0,1}. -/
theorem plru_tables_consistent :
    ∀ s : Fin 8, ∀ w : Fin 4,
      4 * s.val + w.val < next_state.length ∧
      next_state.getD (4 * s.val + w.val) 0 < plru_bank.length ∧
      plru_bank.getD (next_state.getD (4 * s.val + w.val) 0) 0 ≠ w.val ∧
      (w.val = 0 ∨ w.val = 1 →
        plru_bank.getD (next_state.getD (4 * s.val + w.val) 0) 0 = 2 ∨
        plru_bank.getD (next_state.getD (4 * s.val + w.val) 0) 0 = 3) ∧
      (w.val = 2 ∨ w.val = 3 →
        plru_bank.getD (next_state.getD (4 * s.val + w.val) 0) 0 = 0 ∨
        plru_bank.getD (next_state.getD (4 * s.val + w.val) 0) 0 = 1) := by
  decide

/-- C7 (the most recently touched way is never evicted): if the PLRU state of
set `S` is in 0..7 and a `cache_access` touches way `w` of `S` (by hit or by
fill), then after any number of accesses to other sets the next access to `S`
that misses while all four ways of `S` are valid replaces a way different from
`w`.  In particular, after `cache_init` and four accesses with pairwise
distinct tags to one set (the fourth of which fills way 3), a fifth access with
a new tag to that set misses and does not replace way 3. -/
theorem mru_not_evicted :
    (∀ (c : Cache) (a t : Nat) (tr : List (Nat × Nat)) (a' : Nat),
      rd1 c.plru_state (addr_index a) < 8 →
      (∀ p ∈ tr, addr_index p.1 ≠ addr_index a) →
      addr_index a' = addr_index a →
      ¬ is_hit (run (cache_access c a t) tr) a' →
      (∀ w, w < 4 → rd2 (run (cache_access c a t) tr).valid w (addr_index a) ≠ 0) →
      access_bank (run (cache_access c a t) tr) a' ≠ access_bank c a) ∧
    (∀ (c0 : Cache) (a1 a2 a3 a4 a5 t1 t2 t3 t4 : Nat),
      addr_index a2 = addr_index a1 → addr_index a3 = addr_index a1 →
      addr_index a4 = addr_index a1 → addr_index a5 = addr_index a1 →
      addr_tag a1 ≠ addr_tag a2 → addr_tag a1 ≠ addr_tag a3 → addr_tag a1 ≠ addr_tag a4 →
      addr_tag a1 ≠ addr_tag a5 → addr_tag a2 ≠ addr_tag a3 → addr_tag a2 ≠ addr_tag a4 →
      addr_tag a2 ≠ addr_tag a5 → addr_tag a3 ≠ addr_tag a4 → addr_tag a3 ≠ addr_tag a5 →
      addr_tag a4 ≠ addr_tag a5 →
      access_bank (run (cache_init c0) [(a1, t1), (a2, t2), (a3, t3)]) a4 = 3 ∧
      ¬ is_hit (run (cache_init c0) [(a1, t1), (a2, t2), (a3, t3), (a4, t4)]) a5 ∧
      access_bank (run (cache_init c0) [(a1, t1), (a2, t2), (a3, t3), (a4, t4)]) a5 ≠ 3) := by
  have general : ∀ (c : Cache) (a t : Nat) (tr : List (Nat × Nat)) (a' : Nat),
      rd1 c.plru_state (addr_index a) < 8 →
      (∀ p ∈ tr, addr_index p.1 ≠ addr_index a) →
      addr_index a' = addr_index a →
      ¬ is_hit (run (cache_access c a t) tr) a' →
      (∀ w, w < 4 → rd2 (run (cache_access c a t) tr).valid w (addr_index a) ≠ 0) →
      access_bank (run (cache_access c a t) tr) a' ≠ access_bank c a := by
    intro c a t tr a' hs htr ha' hmiss hfull
    rw [access_bank_miss _ a' hmiss, ha', replacement_bank_full _ _ hfull,
      run_other_plru _ tr _ htr, access_plru_at c a t hs]
    exact victim_ne_touched _ _ hs (access_bank_lt c a)
  refine ⟨general, ?_⟩
  intro c0 a1 a2 a3 a4 a5 t1 t2 t3 t4 h2 h3 h4 h5 d12 d13 d14 d15 d23 d24 d25 d34 d35 d45
  simp only [run_cons, run_nil, cache_init_eq]
  have p0 : rd1 (empty_cache 0 0 0).plru_state (addr_index a1) = 0 := by
    simp [rd1, empty_cache]
  have k0 := cold_set_zero (empty_cache 0 0 0) (addr_index a1)
    (fun w => addr_tag ([a1, a2, a3, a4].getD w 0)) (empty_cache_invalid 0 0 0 _)
  have n1 : ∀ w, w < 0 → addr_tag ([a1, a2, a3, a4].getD w 0) ≠ addr_tag a1 :=
    fun w hw => absurd hw (Nat.not_lt_zero w)
  have n2 : ∀ w, w < 1 → addr_tag ([a1, a2, a3, a4].getD w 0) ≠ addr_tag a2 :=
    fun w hw => by interval_cases w; exact d12
  have n3 : ∀ w, w < 2 → addr_tag ([a1, a2, a3, a4].getD w 0) ≠ addr_tag a3 :=
    fun w hw => by interval_cases w; exacts [d13, d23]
  have n4 : ∀ w, w < 3 → addr_tag ([a1, a2, a3, a4].getD w 0) ≠ addr_tag a4 :=
    fun w hw => by interval_cases w; exacts [d14, d24, d34]
  have n5 : ∀ w, w < 4 → addr_tag ([a1, a2, a3, a4].getD w 0) ≠ addr_tag a5 :=
    fun w hw => by interval_cases w; exacts [d15, d25, d35, d45]
  have k1 := (cold_step _ _ 0 _ a1 t1 k0 (by norm_num) rfl rfl n1).2.2.1
  have p1 := cold_step_plru _ _ 0 _ a1 t1 0 k0 (by norm_num) rfl rfl n1 p0 (by norm_num)
  have k2 := (cold_step _ _ 1 _ a2 t2 k1 (by norm_num) h2 rfl n2).2.2.1
  have p2 := cold_step_plru _ _ 1 _ a2 t2 _ k1 (by norm_num) h2 rfl n2 p1 (by decide)
  have k3 := (cold_step _ _ 2 _ a3 t3 k2 (by norm_num) h3 rfl n3).2.2.1
  have p3 := cold_step_plru _ _ 2 _ a3 t3 _ k2 (by norm_num) h3 rfl n3 p2 (by decide)
  have s4 := cold_step _ _ 3 _ a4 t4 k3 (by norm_num) h4 rfl n4
  have p3' : rd1 (cache_access (cache_access (cache_access (empty_cache 0 0 0) a1 t1) a2 t2)
      a3 t3).plru_state (addr_index a4) < 8 := by
    rw [h4, p3]; decide
  obtain ⟨m5, -, v5⟩ := full_miss _ _ _ a5 s4.2.2.1 h5 n5
  refine ⟨s4.2.1, m5, ?_⟩
  have g := general _ a4 t4 [] a5 p3' (by simp) (h5.trans h4.symm) m5
    (by rw [h4]; exact v5)
  rw [s4.2.1] at g
  exact g

/-- Witness for C7: in the full set 0 a read hits way 1 (tag 2); after an
access to set 1, a read of the new tag 0 misses in set 0 and replaces a way
other than 1. -/
theorem mru_not_evicted_witness :
    access_bank (full_set0 0 0 0) 512 = 1 ∧
      access_bank (run (cache_access (full_set0 0 0 0) 512 0) [(8, 1)]) 0 ≠ 1 :=
  ⟨by decide,
    mru_not_evicted.1 (full_set0 0 0 0) 512 0 [(8, 1)] 0 (by decide) (by decide) (by decide)
      (by decide) (by decide)⟩

/-- C8 (cold fill order, with the counter read as a C `unsigned int`): from
any cache state in which all four ways of set `S` are invalid, whatever the
PLRU state of `S`, four consecutive accesses of any types whose addresses map
to `S` with pairwise distinct tags are all misses, the k-th one fills way
`k-1`, `misses` becomes `(misses + 4) mod 2^32`, which is `misses + 4` unless
the counter wraps, and `hits` and `write_backs` are unchanged. -/
theorem cold_fill_order (c : Cache) (a1 a2 a3 a4 t1 t2 t3 t4 : Nat)
    (hinv : ∀ w, w < 4 → rd2 c.valid w (addr_index a1) = 0)
    (h2 : addr_index a2 = addr_index a1) (h3 : addr_index a3 = addr_index a1)
    (h4 : addr_index a4 = addr_index a1)
    (d12 : addr_tag a1 ≠ addr_tag a2) (d13 : addr_tag a1 ≠ addr_tag a3)
    (d14 : addr_tag a1 ≠ addr_tag a4) (d23 : addr_tag a2 ≠ addr_tag a3)
    (d24 : addr_tag a2 ≠ addr_tag a4) (d34 : addr_tag a3 ≠ addr_tag a4) :
    (¬ is_hit c a1 ∧ access_bank c a1 = 0) ∧
    (¬ is_hit (run c [(a1, t1)]) a2 ∧ access_bank (run c [(a1, t1)]) a2 = 1) ∧
    (¬ is_hit (run c [(a1, t1), (a2, t2)]) a3 ∧
      access_bank (run c [(a1, t1), (a2, t2)]) a3 = 2) ∧
    (¬ is_hit (run c [(a1, t1), (a2, t2), (a3, t3)]) a4 ∧
      access_bank (run c [(a1, t1), (a2, t2), (a3, t3)]) a4 = 3) ∧
    (run c [(a1, t1), (a2, t2), (a3, t3), (a4, t4)]).misses = (c.misses + 4) % 2 ^ 32 ∧
    (c.misses + 4 < 2 ^ 32 →
      (run c [(a1, t1), (a2, t2), (a3, t3), (a4, t4)]).misses = c.misses + 4) ∧
    (run c [(a1, t1), (a2, t2), (a3, t3), (a4, t4)]).hits = c.hits ∧
    (run c [(a1, t1), (a2, t2), (a3, t3), (a4, t4)]).write_backs = c.write_backs := by
  simp only [run_cons, run_nil]
  obtain ⟨m1, b1, c1, x1, y1, z1, -, -⟩ :=
    cold_step c (addr_index a1) 0 (fun w => addr_tag ([a1, a2, a3, a4].getD w 0)) a1 t1
      (cold_set_zero _ _ _ hinv) (by norm_num) rfl rfl (fun w hw => absurd hw (Nat.not_lt_zero w))
  obtain ⟨m2, b2, c2, x2, y2, z2, -, -⟩ :=
    cold_step _ (addr_index a1) 1 (fun w => addr_tag ([a1, a2, a3, a4].getD w 0)) a2 t2
      c1 (by norm_num) h2 rfl (fun w hw => by interval_cases w; exact d12)
  obtain ⟨m3, b3, c3, x3, y3, z3, -, -⟩ :=
    cold_step _ (addr_index a1) 2 (fun w => addr_tag ([a1, a2, a3, a4].getD w 0)) a3 t3
      c2 (by norm_num) h3 rfl (fun w hw => by interval_cases w; exacts [d13, d23])
  obtain ⟨m4, b4, -, x4, y4, z4, -, -⟩ :=
    cold_step _ (addr_index a1) 3 (fun w => addr_tag ([a1, a2, a3, a4].getD w 0)) a4 t4
      c3 (by norm_num) h4 rfl (fun w hw => by interval_cases w; exacts [d14, d24, d34])
  have hm : (cache_access (cache_access (cache_access (cache_access c a1 t1) a2 t2) a3 t3)
      a4 t4).misses = (c.misses + 4) % 2 ^ 32 := by
    rw [y4, y3, y2, y1, incr4]
  refine ⟨⟨m1, b1⟩, ⟨m2, b2⟩, ⟨m3, b3⟩, ⟨m4, b4⟩, hm, ?_, ?_, ?_⟩
  · intro hlt
    rw [hm, Nat.mod_eq_of_lt hlt]
  · rw [x4, x3, x2, x1]
  · rw [z4, z3, z2, z1]

/-- Witness for C8: four reads of tags 0, 1, 2, 3 of set 0 in an empty cache. -/
theorem cold_fill_order_witness :
    (∀ w, w < 4 → rd2 (empty_cache 0 0 0).valid w (addr_index 0) = 0) ∧
      access_bank (run (empty_cache 0 0 0) [(0, 0), (256, 0), (512, 0)]) 768 = 3 ∧
      (run (empty_cache 0 0 0) [(0, 0), (256, 0), (512, 0), (768, 0)]).misses = 4 :=
  ⟨by decide,
    (cold_fill_order (empty_cache 0 0 0) 0 256 512 768 0 0 0 0 (by decide) (by decide)
      (by decide) (by decide) (by decide) (by decide) (by decide) (by decide) (by decide)
      (by decide)).2.2.2.1.2,
    (cold_fill_order (empty_cache 0 0 0) 0 256 512 768 0 0 0 0 (by decide) (by decide)
      (by decide) (by decide) (by decide) (by decide) (by decide) (by decide) (by decide)
      (by decide)).2.2.2.2.2.1 (by decide)⟩

/-- Counterexample to C8 as stated: with `misses = 2^32 - 1` and set 0 empty,
four reads of tags 0, 1, 2, 3 of set 0 leave `misses = 3`, not `misses + 4`. -/
theorem cold_fill_order_counterexample :
    (∀ w, w < 4 → rd2 (empty_cache 0 4294967295 0).valid w (addr_index 0) = 0) ∧
      addr_index 256 = addr_index 0 ∧ addr_index 512 = addr_index 0 ∧
      addr_index 768 = addr_index 0 ∧
      [addr_tag 0, addr_tag 256, addr_tag 512, addr_tag 768] = [0, 1, 2, 3] ∧
      (empty_cache 0 4294967295 0).misses = 4294967295 ∧
      (run (empty_cache 0 4294967295 0) [(0, 0), (256, 0), (512, 0), (768, 0)]).misses = 3 ∧
      (run (empty_cache 0 4294967295 0) [(0, 0), (256, 0), (512, 0), (768, 0)]).misses
        ≠ (empty_cache 0 4294967295 0).misses + 4 := by
  decide

/-- C9 (repeat access, with the counter read as a C `unsigned int`): if the
PLRU state of the addressed set is in 0..7, then after `cache_access(a, t1)`
an immediately following `cache_access(a', t2)` with `a'` mapping to the same
set and tag as `a` is a hit on the way the first access touched; `hits`
becomes `(hits + 1) mod 2^32`, which is `hits + 1` unless `hits` was
`2^32 - 1`; `misses` and `write_backs` are unchanged; every valid bit, every
tag and every PLRU state is unchanged (for the addressed set because
`next_state[4*next_state[4*s+w]+w] = next_state[4*s+w]`); dirty bits are
unchanged except that the touched line becomes dirty when `t2` is a write. -/
theorem repeat_access (c : Cache) (a t1 a' t2 : Nat)
    (hs : rd1 c.plru_state (addr_index a) < 8)
    (hi : addr_index a' = addr_index a) (hg : addr_tag a' = addr_tag a) :
    is_hit (cache_access c a t1) a' ∧
    access_bank (cache_access c a t1) a' = access_bank c a ∧
    (cache_access (cache_access c a t1) a' t2).hits = ((cache_access c a t1).hits + 1) % 2 ^ 32 ∧
    ((cache_access c a t1).hits < 2 ^ 32 - 1 →
      (cache_access (cache_access c a t1) a' t2).hits = (cache_access c a t1).hits + 1) ∧
    (cache_access (cache_access c a t1) a' t2).misses = (cache_access c a t1).misses ∧
    (cache_access (cache_access c a t1) a' t2).write_backs
      = (cache_access c a t1).write_backs ∧
    (cache_access (cache_access c a t1) a' t2).valid = (cache_access c a t1).valid ∧
    (cache_access (cache_access c a t1) a' t2).tag = (cache_access c a t1).tag ∧
    (cache_access (cache_access c a t1) a' t2).plru_state
      = (cache_access c a t1).plru_state ∧
    next_state.getD
        (4 * next_state.getD (4 * rd1 c.plru_state (addr_index a) + access_bank c a) 0
          + access_bank c a) 0
      = next_state.getD (4 * rd1 c.plru_state (addr_index a) + access_bank c a) 0 ∧
    (t2 ≠ 1 → (cache_access (cache_access c a t1) a' t2).dirty = (cache_access c a t1).dirty) ∧
    (t2 = 1 →
      rd2 (cache_access (cache_access c a t1) a' t2).dirty (access_bank c a) (addr_index a) = 1 ∧
      ∀ w j, ¬ (w = access_bank c a ∧ j = addr_index a) →
        rd2 (cache_access (cache_access c a t1) a' t2).dirty w j
          = rd2 (cache_access c a t1).dirty w j) := by
  have hidx := addr_index_lt a
  have hb := access_bank_lt c a
  obtain ⟨q1, q2⟩ := hit_after_access c a t1
  rw [← hi, ← hg] at q1 q2
  obtain ⟨hit, hbank⟩ := access_bank_of_least (cache_access c a t1) a' (access_bank c a) hb q1 q2
  have idem := next_state_idem _ _ hs hb
  have hp := access_plru_at c a t1 hs
  refine ⟨hit, hbank, ?_, ?_, ?_, ?_, ?_, ?_, ?_, idem, ?_, ?_⟩
  · rw [access_hits, if_pos hit]; rfl
  · intro hlt; rw [access_hits, if_pos hit]; exact incr_of_lt _ hlt
  · rw [access_misses, if_pos hit]
  · rw [access_write_backs, if_neg (by tauto)]
  · rw [access_valid, if_pos hit]
  · rw [access_tag, if_pos hit]
  · have hn : next_state.getD (4 * rd1 c.plru_state (addr_index a) + access_bank c a) 0 < 8 :=
      next_state_lt _
    have hlt : 4 * next_state.getD (4 * rd1 c.plru_state (addr_index a) + access_bank c a) 0
        + access_bank c a < UINT_RANGE := by
      have : (36 : Nat) ≤ UINT_RANGE := by norm_num
      omega
    rw [access_plru_state (cache_access c a t1) a' t2, hbank, hi, hp,
      Nat.mod_eq_of_lt hlt, idem]
    conv_lhs => rw [← hp]
    exact wr1_same _ _
  · intro ht
    rw [access_dirty (cache_access c a t1) a' t2, if_neg ht, if_pos hit]
  · intro ht
    rw [access_dirty (cache_access c a t1) a' t2, if_pos ht, if_pos hit, hbank, hi]
    constructor
    · rw [rd2_wr2]; simp [hb, hidx]
    · intro w j hne
      rw [rd2_wr2, if_neg (by tauto)]

/-- Witness for C9: a read of word 0 in an empty cache followed by a write to
word 1, which lies in the same line. -/
theorem repeat_access_witness :
    rd1 (empty_cache 3 0 0).plru_state (addr_index 0) < 8 ∧
      addr_index 1 = addr_index 0 ∧ addr_tag 1 = addr_tag 0 ∧
      (cache_access (cache_access (empty_cache 3 0 0) 0 0) 1 1).hits = 4 ∧
      (cache_access (cache_access (empty_cache 3 0 0) 0 0) 1 1).plru_state
        = (cache_access (empty_cache 3 0 0) 0 0).plru_state :=
  ⟨by decide, by decide, by decide,
    (repeat_access (empty_cache 3 0 0) 0 0 1 1 (by decide) (by decide) (by decide)).2.2.2.1
      (by decide),
    (repeat_access (empty_cache 3 0 0) 0 0 1 1 (by decide) (by decide)
      (by decide)).2.2.2.2.2.2.2.2.1⟩

/-- Counterexample to C9 as stated: with `hits = 2^32 - 1` a read that misses
in an empty cache followed by a read of the same address leaves `hits = 0`
after the repeat, not `hits + 1`. -/
theorem repeat_access_counterexample :
    (∀ j, j < 32 → rd1 (empty_cache 4294967295 0 0).plru_state j < 8) ∧
      (cache_access (empty_cache 4294967295 0 0) 0 0).hits = 4294967295 ∧
      is_hit (cache_access (empty_cache 4294967295 0 0) 0 0) 0 ∧
      (cache_access (cache_access (empty_cache 4294967295 0 0) 0 0) 0 0).hits = 0 ∧
      (cache_access (cache_access (empty_cache 4294967295 0 0) 0 0) 0 0).hits
        ≠ (cache_access (empty_cache 4294967295 0 0) 0 0).hits + 1 := by
  decide

/-- C10 (write-then-evict): starting from `cache_init`, for addresses
`a1 .. a5` that map to one set with pairwise distinct tags, the trace
write(a1), read(a2), read(a3), read(a4), read(a5) leaves `write_backs = 0`
after each of the first four accesses and `write_backs = 1` after the fifth;
the first access fills way 0, the fifth access is a miss that replaces way 0,
which then still holds the tag written by the first access and is dirty; at the
end `misses = 5` and `hits = 0`. -/
theorem write_then_evict (c0 : Cache) (a1 a2 a3 a4 a5 : Nat)
    (h2 : addr_index a2 = addr_index a1) (h3 : addr_index a3 = addr_index a1)
    (h4 : addr_index a4 = addr_index a1) (h5 : addr_index a5 = addr_index a1)
    (d12 : addr_tag a1 ≠ addr_tag a2) (d13 : addr_tag a1 ≠ addr_tag a3)
    (d14 : addr_tag a1 ≠ addr_tag a4) (d15 : addr_tag a1 ≠ addr_tag a5)
    (d23 : addr_tag a2 ≠ addr_tag a3) (d24 : addr_tag a2 ≠ addr_tag a4)
    (d25 : addr_tag a2 ≠ addr_tag a5) (d34 : addr_tag a3 ≠ addr_tag a4)
    (d35 : addr_tag a3 ≠ addr_tag a5) (d45 : addr_tag a4 ≠ addr_tag a5) :
    (run (cache_init c0) [(a1, 1)]).write_backs = 0 ∧
    (run (cache_init c0) [(a1, 1), (a2, 0)]).write_backs = 0 ∧
    (run (cache_init c0) [(a1, 1), (a2, 0), (a3, 0)]).write_backs = 0 ∧
    (run (cache_init c0) [(a1, 1), (a2, 0), (a3, 0), (a4, 0)]).write_backs = 0 ∧
    (run (cache_init c0) [(a1, 1), (a2, 0), (a3, 0), (a4, 0), (a5, 0)]).write_backs = 1 ∧
    access_bank (cache_init c0) a1 = 0 ∧
    ¬ is_hit (run (cache_init c0) [(a1, 1), (a2, 0), (a3, 0), (a4, 0)]) a5 ∧
    access_bank (run (cache_init c0) [(a1, 1), (a2, 0), (a3, 0), (a4, 0)]) a5 = 0 ∧
    rd2 (run (cache_init c0) [(a1, 1), (a2, 0), (a3, 0), (a4, 0)]).tag 0 (addr_index a1)
      = addr_tag a1 ∧
    rd2 (run (cache_init c0) [(a1, 1), (a2, 0), (a3, 0), (a4, 0)]).dirty 0 (addr_index a1) = 1 ∧
    (run (cache_init c0) [(a1, 1), (a2, 0), (a3, 0), (a4, 0), (a5, 0)]).misses = 5 ∧
    (run (cache_init c0) [(a1, 1), (a2, 0), (a3, 0), (a4, 0), (a5, 0)]).hits = 0 := by
  simp only [run_cons, run_nil, cache_init_eq]
  have p0 : rd1 (empty_cache 0 0 0).plru_state (addr_index a1) = 0 := by
    simp [rd1, empty_cache]
  have k0 := cold_set_zero (empty_cache 0 0 0) (addr_index a1)
    (fun w => addr_tag ([a1, a2, a3, a4].getD w 0)) (empty_cache_invalid 0 0 0 _)
  have n1 : ∀ w, w < 0 → addr_tag ([a1, a2, a3, a4].getD w 0) ≠ addr_tag a1 :=
    fun w hw => absurd hw (Nat.not_lt_zero w)
  have n2 : ∀ w, w < 1 → addr_tag ([a1, a2, a3, a4].getD w 0) ≠ addr_tag a2 :=
    fun w hw => by interval_cases w; exact d12
  have n3 : ∀ w, w < 2 → addr_tag ([a1, a2, a3, a4].getD w 0) ≠ addr_tag a3 :=
    fun w hw => by interval_cases w; exacts [d13, d23]
  have n4 : ∀ w, w < 3 → addr_tag ([a1, a2, a3, a4].getD w 0) ≠ addr_tag a4 :=
    fun w hw => by interval_cases w; exacts [d14, d24, d34]
  have n5 : ∀ w, w < 4 → addr_tag ([a1, a2, a3, a4].getD w 0) ≠ addr_tag a5 :=
    fun w hw => by interval_cases w; exacts [d15, d25, d35, d45]
  obtain ⟨-, b1, k1, x1, y1, z1, e1, -⟩ :=
    cold_step _ _ 0 _ a1 1 k0 (by norm_num) rfl rfl n1
  have p1 := cold_step_plru _ _ 0 _ a1 1 0 k0 (by norm_num) rfl rfl n1 p0 (by norm_num)
  obtain ⟨-, -, k2, x2, y2, z2, -, f2⟩ :=
    cold_step _ _ 1 _ a2 0 k1 (by norm_num) h2 rfl n2
  have p2 := cold_step_plru _ _ 1 _ a2 0 _ k1 (by norm_num) h2 rfl n2 p1 (by decide)
  obtain ⟨-, -, k3, x3, y3, z3, -, f3⟩ :=
    cold_step _ _ 2 _ a3 0 k2 (by norm_num) h3 rfl n3
  have p3 := cold_step_plru _ _ 2 _ a3 0 _ k2 (by norm_num) h3 rfl n3 p2 (by decide)
  obtain ⟨-, -, k4, x4, y4, z4, -, f4⟩ :=
    cold_step _ _ 3 _ a4 0 k3 (by norm_num) h4 rfl n4
  have p4 := cold_step_plru _ _ 3 _ a4 0 _ k3 (by norm_num) h4 rfl n4 p3 (by decide)
  obtain ⟨m5, b5, v5⟩ := full_miss _ _ _ a5 k4 h5 n5
  have b5' : access_bank (cache_access (cache_access (cache_access
      (cache_access (empty_cache 0 0 0) a1 1) a2 0) a3 0) a4 0) a5 = 0 := by
    rw [b5, p4]; decide
  have w1 : (cache_access (empty_cache 0 0 0) a1 1).write_backs = 0 := by rw [z1]; rfl
  have w2 := z2.trans w1
  have w3 := z3.trans w2
  have w4 := z4.trans w3
  have g0 := ((k4 0 (by norm_num)).1 (by norm_num)).2
  have d0 : rd2 (cache_access (cache_access (cache_access
      (cache_access (empty_cache 0 0 0) a1 1) a2 0) a3 0) a4 0).dirty 0 (addr_index a1) = 1 := by
    rw [f4 0 (by norm_num), f3 0 (by norm_num), f2 0 (by norm_num), e1]; rfl
  refine ⟨w1, w2, w3, w4, ?_, b1, m5, b5', g0, d0, ?_, ?_⟩
  · rw [access_write_backs, if_pos, w4]
    · rfl
    · refine ⟨m5, ?_, ?_⟩
      · rw [b5', h5]; exact v5 0 (by norm_num)
      · rw [b5', h5, d0]; norm_num
  · rw [access_misses, if_neg m5, y4, y3, y2, y1]; rfl
  · rw [access_hits, if_neg m5, x4, x3, x2, x1]; rfl

/-- Witness for C10: the trace write(0), read(256), read(512), read(768),
read(1024), whose addresses are tags 0 .. 4 of set 0. -/
theorem write_then_evict_witness :
    (addr_index 256 = addr_index 0 ∧ addr_index 512 = addr_index 0 ∧
      addr_index 768 = addr_index 0 ∧ addr_index 1024 = addr_index 0) ∧
    [addr_tag 0, addr_tag 256, addr_tag 512, addr_tag 768, addr_tag 1024] = [0, 1, 2, 3, 4] ∧
    (run (cache_init (full_set0 9 9 9))
      [(0, 1), (256, 0), (512, 0), (768, 0), (1024, 0)]).write_backs = 1 :=
  ⟨by decide, by decide,
    (write_then_evict (full_set0 9 9 9) 0 256 512 768 1024 (by decide) (by decide) (by decide)
      (by decide) (by decide) (by decide) (by decide) (by decide) (by decide) (by decide)
      (by decide) (by decide) (by decide) (by decide)).2.2.2.2.1⟩

/-- C11 (reset): whatever the prior state, `cache_init` produces one fixed
state: every line of all 4 ways and 32 sets has `valid = 0`, `dirty = 0`,
`tag = 0`, every `plru_state` entry is 0 and `hits = misses = write_backs = 0`;
so `cache_init` does not depend on the prior state, is idempotent, and resets
any state reached from `cache_init` by any number of `cache_access` calls. -/
theorem cache_init_reset (c : Cache) :
    (∀ (w : Fin 4) (j : Fin LINES_PER_BANK),
      (cache_init c).valid w j = 0 ∧ (cache_init c).dirty w j = 0 ∧
        (cache_init c).tag w j = 0) ∧
    (∀ j : Fin LINES_PER_BANK, (cache_init c).plru_state j = 0) ∧
    (cache_init c).hits = 0 ∧ (cache_init c).misses = 0 ∧ (cache_init c).write_backs = 0 ∧
    (∀ c' : Cache, cache_init c' = cache_init c) ∧
    cache_init (cache_init c) = cache_init c ∧
    (∀ tr : List (Nat × Nat), cache_init (run (cache_init c) tr) = cache_init c) := by
  simp only [cache_init_eq]
  exact ⟨fun _ _ => ⟨rfl, rfl, rfl⟩, fun _ => rfl, rfl, rfl, rfl, fun _ => trivial, trivial,
    fun _ => trivial⟩

/-- C12 (concrete 8-access trace, as the code behaves): after `cache_init`,
the eight read accesses to word addresses 0, 1, ..., 7 in that order all map to
set 0 with tag 0, so they lie in one line: the first access misses and fills
way 0, the other seven hit it, and the run records exactly 1 miss, 7 hits and
0 write-backs. -/
theorem eight_word_trace (c0 : Cache) :
    (∀ a, a < 8 → addr_index a = 0 ∧ addr_tag a = 0) ∧
    ¬ is_hit (cache_init c0) 0 ∧
    (∀ a, a < 8 → is_hit (run (cache_init c0) [(0, 0)]) a) ∧
    (run (cache_init c0)
      [(0, 0), (1, 0), (2, 0), (3, 0), (4, 0), (5, 0), (6, 0), (7, 0)]).misses = 1 ∧
    (run (cache_init c0)
      [(0, 0), (1, 0), (2, 0), (3, 0), (4, 0), (5, 0), (6, 0), (7, 0)]).hits = 7 ∧
    (run (cache_init c0)
      [(0, 0), (1, 0), (2, 0), (3, 0), (4, 0), (5, 0), (6, 0), (7, 0)]).write_backs = 0 := by
  simp only [cache_init_eq]
  decide

/-- Counterexample to C12 as stated: after `cache_init` the eight reads of
word addresses 0 .. 7 all map to set 0 and the run records 1 miss, not 4. -/
theorem eight_word_trace_counterexample :
    (∀ a, a < 8 → addr_index a = 0) ∧
      (run (cache_init (empty_cache 0 0 0))
        [(0, 0), (1, 0), (2, 0), (3, 0), (4, 0), (5, 0), (6, 0), (7, 0)]).misses = 1 ∧
      (run (cache_init (empty_cache 0 0 0))
        [(0, 0), (1, 0), (2, 0), (3, 0), (4, 0), (5, 0), (6, 0), (7, 0)]).misses ≠ 4 := by
  decide

/-- C13 (line invariant): the predicate "`valid = 0` implies `dirty = 0` for
every (way, set)" is preserved by `cache_access` from any state that satisfies
it, and it holds in every state reachable from `cache_init` by any sequence of
`cache_access` calls: there every line that is not valid is not dirty. -/
theorem invalid_not_dirty :
    (∀ (c : Cache) (a t : Nat),
      (∀ (w : Fin 4) (j : Fin LINES_PER_BANK), c.valid w j = 0 → c.dirty w j = 0) →
      ∀ (w : Fin 4) (j : Fin LINES_PER_BANK),
        (cache_access c a t).valid w j = 0 → (cache_access c a t).dirty w j = 0) ∧
    (∀ (c0 : Cache) (tr : List (Nat × Nat)) (w : Fin 4) (j : Fin LINES_PER_BANK),
      (run (cache_init c0) tr).valid w j = 0 → (run (cache_init c0) tr).dirty w j = 0) := by
  have step : ∀ (c : Cache) (a t : Nat),
      (∀ (w : Fin 4) (j : Fin LINES_PER_BANK), c.valid w j = 0 → c.dirty w j = 0) →
      ∀ (w : Fin 4) (j : Fin LINES_PER_BANK),
        (cache_access c a t).valid w j = 0 → (cache_access c a t).dirty w j = 0 := by
    intro c a t inv w j hv
    rw [← rd2_fin (cache_access c a t).valid w j] at hv
    rw [← rd2_fin (cache_access c a t).dirty w j]
    by_cases hp : w.val = access_bank c a ∧ j.val = addr_index a
    · rw [hp.1, hp.2] at hv
      exact absurd hv (access_touched_valid c a t)
    · obtain ⟨e1, e2, -⟩ := access_frame c a t w.val j.val hp
      rw [e1, rd2_fin] at hv
      rw [e2, rd2_fin]
      exact inv w j hv
  refine ⟨step, ?_⟩
  intro c0 tr
  refine run_invariant
    (fun c => ∀ (w : Fin 4) (j : Fin LINES_PER_BANK), c.valid w j = 0 → c.dirty w j = 0)
    step tr (cache_init c0) ?_
  rw [cache_init_eq]
  intro w j _
  rfl

/-- Witness for C13: a write to set 1 (one access that misses) in the cache
whose set 0 is full and dirty and whose other sets are empty and clean. -/
theorem invalid_not_dirty_witness :
    (∀ (w : Fin 4) (j : Fin LINES_PER_BANK),
      (full_set0 0 0 0).valid w j = 0 → (full_set0 0 0 0).dirty w j = 0) ∧
    (∀ (w : Fin 4) (j : Fin LINES_PER_BANK),
      (cache_access (full_set0 0 0 0) 8 1).valid w j = 0 →
        (cache_access (full_set0 0 0 0) 8 1).dirty w j = 0) :=
  ⟨by decide, invalid_not_dirty.1 (full_set0 0 0 0) 8 1 (by decide)⟩

/-- C14 (distinct tags per set): the predicate "no two different valid ways of
one set hold the same tag" is preserved by `cache_access` from any state that
satisfies it; it holds in every state reachable from `cache_init` by any
sequence of `cache_access` calls, and there at most one way can match any
address. -/
theorem distinct_tags :
    (∀ (c : Cache) (a t : Nat),
      (∀ (j : Fin LINES_PER_BANK) (w1 w2 : Fin 4), w1 ≠ w2 →
        c.valid w1 j ≠ 0 → c.valid w2 j ≠ 0 → c.tag w1 j ≠ c.tag w2 j) →
      ∀ (j : Fin LINES_PER_BANK) (w1 w2 : Fin 4), w1 ≠ w2 →
        (cache_access c a t).valid w1 j ≠ 0 → (cache_access c a t).valid w2 j ≠ 0 →
        (cache_access c a t).tag w1 j ≠ (cache_access c a t).tag w2 j) ∧
    (∀ (c0 : Cache) (tr : List (Nat × Nat)) (j : Fin LINES_PER_BANK) (w1 w2 : Fin 4),
      w1 ≠ w2 →
      (run (cache_init c0) tr).valid w1 j ≠ 0 → (run (cache_init c0) tr).valid w2 j ≠ 0 →
      (run (cache_init c0) tr).tag w1 j ≠ (run (cache_init c0) tr).tag w2 j) ∧
    (∀ (c0 : Cache) (tr : List (Nat × Nat)) (a : Nat) (w1 w2 : Fin 4),
      bank_hit (run (cache_init c0) tr) (addr_index a) (addr_tag a) w1.val →
      bank_hit (run (cache_init c0) tr) (addr_index a) (addr_tag a) w2.val → w1 = w2) := by
  have step : ∀ (c : Cache) (a t : Nat),
      (∀ (j : Fin LINES_PER_BANK) (w1 w2 : Fin 4), w1 ≠ w2 →
        c.valid w1 j ≠ 0 → c.valid w2 j ≠ 0 → c.tag w1 j ≠ c.tag w2 j) →
      ∀ (j : Fin LINES_PER_BANK) (w1 w2 : Fin 4), w1 ≠ w2 →
        (cache_access c a t).valid w1 j ≠ 0 → (cache_access c a t).valid w2 j ≠ 0 →
        (cache_access c a t).tag w1 j ≠ (cache_access c a t).tag w2 j := by
    intro c a t inv j w1 w2 hne hv1 hv2
    by_cases hit : is_hit c a
    · rw [access_valid, if_pos hit] at hv1 hv2
      rw [access_tag, if_pos hit]
      exact inv j w1 w2 hne hv1 hv2
    · have nohit : ∀ w : Fin 4, j.val = addr_index a → c.valid w j ≠ 0 →
          addr_tag a ≠ c.tag w j := by
        intro w hj hv hg
        apply hit
        refine ⟨w.val, w.isLt, ?_, ?_⟩
        · rw [← hj, rd2_fin]; exact hv
        · rw [← hj, rd2_fin]; exact hg
      rw [← rd2_fin (cache_access c a t).valid w1 j] at hv1
      rw [← rd2_fin (cache_access c a t).valid w2 j] at hv2
      rw [← rd2_fin (cache_access c a t).tag w1 j, ← rd2_fin (cache_access c a t).tag w2 j]
      have hw : w1.val ≠ w2.val := fun h => hne (Fin.ext h)
      by_cases p1 : w1.val = access_bank c a ∧ j.val = addr_index a
      · have p2 : ¬ (w2.val = access_bank c a ∧ j.val = addr_index a) := by
          intro h; exact hw (p1.1.trans h.1.symm)
        obtain ⟨e1, -, e3⟩ := access_frame c a t w2.val j.val p2
        rw [e1, rd2_fin] at hv2
        rw [e3, rd2_fin c.tag w2 j, p1.1, p1.2, access_touched_tag]
        exact nohit w2 p1.2 hv2
      · obtain ⟨f1, -, f3⟩ := access_frame c a t w1.val j.val p1
        rw [f1, rd2_fin] at hv1
        rw [f3, rd2_fin c.tag w1 j]
        by_cases p2 : w2.val = access_bank c a ∧ j.val = addr_index a
        · rw [p2.1, p2.2, access_touched_tag]
          exact fun h => nohit w1 p2.2 hv1 h.symm
        · obtain ⟨e1, -, e3⟩ := access_frame c a t w2.val j.val p2
          rw [e1, rd2_fin] at hv2
          rw [e3, rd2_fin c.tag w2 j]
          exact inv j w1 w2 hne hv1 hv2
  have reach : ∀ (c0 : Cache) (tr : List (Nat × Nat)) (j : Fin LINES_PER_BANK) (w1 w2 : Fin 4),
      w1 ≠ w2 →
      (run (cache_init c0) tr).valid w1 j ≠ 0 → (run (cache_init c0) tr).valid w2 j ≠ 0 →
      (run (cache_init c0) tr).tag w1 j ≠ (run (cache_init c0) tr).tag w2 j := by
    intro c0 tr
    refine run_invariant
      (fun c => ∀ (j : Fin LINES_PER_BANK) (w1 w2 : Fin 4), w1 ≠ w2 →
        c.valid w1 j ≠ 0 → c.valid w2 j ≠ 0 → c.tag w1 j ≠ c.tag w2 j)
      step tr (cache_init c0) ?_
    rw [cache_init_eq]
    intro j w1 w2 _ h
    exact absurd rfl h
  refine ⟨step, reach, ?_⟩
  intro c0 tr a w1 w2 h1 h2
  by_contra hne
  have hi := addr_index_lt a
  have := reach c0 tr ⟨addr_index a, hi⟩ w1 w2 hne
    (by rw [rd2_mk (run (cache_init c0) tr).valid w1 _ hi]; exact h1.1)
    (by rw [rd2_mk (run (cache_init c0) tr).valid w2 _ hi]; exact h2.1)
  apply this
  have t1 := h1.2
  have t2 := h2.2
  rw [rd2_mk (run (cache_init c0) tr).tag w1 _ hi, rd2_mk (run (cache_init c0) tr).tag w2 _ hi]
  exact t1.symm.trans t2

/-- Witness for C14: a read of the new tag 0 in the full set 0, whose four
ways hold the distinct tags 1, 2, 3, 4. -/
theorem distinct_tags_witness :
    (∀ (j : Fin LINES_PER_BANK) (w1 w2 : Fin 4), w1 ≠ w2 →
      (full_set0 0 0 0).valid w1 j ≠ 0 → (full_set0 0 0 0).valid w2 j ≠ 0 →
      (full_set0 0 0 0).tag w1 j ≠ (full_set0 0 0 0).tag w2 j) ∧
    (cache_access (full_set0 0 0 0) 0 0).tag 0 0 ≠ (cache_access (full_set0 0 0 0) 0 0).tag 1 0 :=
  ⟨by decide,
    distinct_tags.1 (full_set0 0 0 0) 0 0 (by decide) 0 0 1 (by decide) (by decide) (by decide)⟩

/-- C15 (counters, read as C `unsigned int`): after `cache_access` each of
`hits`, `misses` and `write_backs` is either its value before the call or that
value plus 1 modulo `2^32`; exactly one of `hits` and `misses` is incremented
(modulo `2^32`) and the other is unchanged; so whenever a counter is below
`2^32 - 1` before the call it is greater than or equal to that value after it,
and if `hits` and `misses` are both below `2^32 - 1` exactly one of them
increases, by exactly 1. -/
theorem counters_step (c : Cache) (address type : Nat) :
    (((cache_access c address type).hits = (c.hits + 1) % 2 ^ 32 ∧
        (cache_access c address type).misses = c.misses) ∨
      ((cache_access c address type).hits = c.hits ∧
        (cache_access c address type).misses = (c.misses + 1) % 2 ^ 32)) ∧
    ((cache_access c address type).write_backs = c.write_backs ∨
      (cache_access c address type).write_backs = (c.write_backs + 1) % 2 ^ 32) ∧
    (c.hits < 2 ^ 32 - 1 → c.hits ≤ (cache_access c address type).hits) ∧
    (c.misses < 2 ^ 32 - 1 → c.misses ≤ (cache_access c address type).misses) ∧
    (c.write_backs < 2 ^ 32 - 1 → c.write_backs ≤ (cache_access c address type).write_backs) ∧
    (c.hits < 2 ^ 32 - 1 → c.misses < 2 ^ 32 - 1 →
      (((cache_access c address type).hits = c.hits + 1 ∧
          (cache_access c address type).misses = c.misses) ∨
        ((cache_access c address type).hits = c.hits ∧
          (cache_access c address type).misses = c.misses + 1))) := by
  have hh := access_hits c address type
  have hm := access_misses c address type
  have hw := access_write_backs c address type
  unfold incr at hh hm hw
  norm_num at hh hm hw ⊢
  by_cases hit : is_hit c address
  · simp only [hit, if_true, not_true_eq_false, false_and, if_false] at hh hm hw
    rw [hh, hm, hw]
    refine ⟨Or.inl ⟨rfl, rfl⟩, Or.inl rfl, ?_, ?_, ?_, ?_⟩ <;> intros <;> omega
  · simp only [hit, if_false, not_false_eq_true, true_and] at hh hm hw
    rw [hh, hm, hw]
    refine ⟨Or.inr ⟨rfl, rfl⟩, ?_, ?_, ?_, ?_, ?_⟩
    · split_ifs
      · exact Or.inr rfl
      · exact Or.inl rfl
    · intros; omega
    · intros; omega
    · intro h; split_ifs <;> omega
    · intros; omega

/-- Witness for C15: a read that misses with all counters at 5. -/
theorem counters_step_witness :
    (full_set0 5 5 5).hits < 2 ^ 32 - 1 ∧ (full_set0 5 5 5).misses < 2 ^ 32 - 1 ∧
      (((cache_access (full_set0 5 5 5) 0 0).hits = (full_set0 5 5 5).hits + 1 ∧
          (cache_access (full_set0 5 5 5) 0 0).misses = (full_set0 5 5 5).misses) ∨
        ((cache_access (full_set0 5 5 5) 0 0).hits = (full_set0 5 5 5).hits ∧
          (cache_access (full_set0 5 5 5) 0 0).misses = (full_set0 5 5 5).misses + 1)) :=
  ⟨by decide, by decide,
    (counters_step (full_set0 5 5 5) 0 0).2.2.2.2.2 (by decide) (by decide)⟩

/-- Counterexample to C15 as stated: with `hits = 2^32 - 1` a read that hits
leaves `hits = 0`, which is smaller than before, and neither `hits` nor
`misses` has increased. -/
theorem counters_step_counterexample :
    (full_set0 4294967295 0 0).hits = 4294967295 ∧
      (cache_access (full_set0 4294967295 0 0) 256 0).hits = 0 ∧
      ¬ ((full_set0 4294967295 0 0).hits ≤ (cache_access (full_set0 4294967295 0 0) 256 0).hits) ∧
      (cache_access (full_set0 4294967295 0 0) 256 0).misses = (full_set0 4294967295 0 0).misses := by
  decide

/-- C16 (`cache_access` never fails): in every state reachable from
`cache_init` by any sequence of `cache_access` calls with arbitrary addresses
and types, every `plru_state` entry is in 0..7; for every further call the
computed set index is in 0..31, the chosen way is in 0..3, the index
`(state<<2)|bank` is inside `next_state` and the state is inside `plru_bank`;
so the access with every array and table lookup checked succeeds and gives
exactly the state the total embedding gives. -/
theorem access_never_fails (c0 : Cache) (tr : List (Nat × Nat)) (address type : Nat) :
    (∀ j : Fin LINES_PER_BANK, (run (cache_init c0) tr).plru_state j < 8) ∧
    addr_index address < LINES_PER_BANK ∧
    access_bank (run (cache_init c0) tr) address < 4 ∧
    rd1 (run (cache_init c0) tr).plru_state (addr_index address) < plru_bank.length ∧
    (((rd1 (run (cache_init c0) tr).plru_state (addr_index address)) <<< 2) % UINT_RANGE
      ||| access_bank (run (cache_init c0) tr) address) < next_state.length ∧
    cache_access_checked (run (cache_init c0) tr) address type
      = some (cache_access (run (cache_init c0) tr) address type) ∧
    (∀ tr' : List (Nat × Nat),
      tr'.foldl (fun (o : Option Cache) p => o.bind fun c => cache_access_checked c p.1 p.2)
          (some (cache_init c0))
        = some (run (cache_init c0) tr')) := by
  have hi := addr_index_lt address
  have hb := access_bank_lt (run (cache_init c0) tr) address
  have hs : rd1 (run (cache_init c0) tr).plru_state (addr_index address) < 8 := by
    have := plru_state_lt_reach c0 tr ⟨addr_index address, hi⟩
    rwa [← rd1_fin (run (cache_init c0) tr).plru_state ⟨addr_index address, hi⟩] at this
  refine ⟨plru_state_lt_reach c0 tr, hi, hb, hs, ?_, cache_access_checked_eq _ _ _ hs, ?_⟩
  · rw [shift_or_bank _ _ hb, Nat.mod_eq_of_lt (by norm_num; omega)]
    show _ < 32
    omega
  · intro tr'
    induction tr' using List.reverseRecOn with
    | nil => rfl
    | append_singleton l p ih =>
      rw [List.foldl_append, ih, run_append]
      have hp : rd1 (run (cache_init c0) l).plru_state (addr_index p.1) < 8 := by
        have := plru_state_lt_reach c0 l ⟨addr_index p.1, addr_index_lt p.1⟩
        rwa [← rd1_fin (run (cache_init c0) l).plru_state
          ⟨addr_index p.1, addr_index_lt p.1⟩] at this
      simp only [List.foldl_cons, List.foldl_nil, Option.some_bind]
      rw [cache_access_checked_eq _ _ _ hp]
      rfl

/-- C17 (the victim is never one of the two most recently touched ways): for
every state `s` in 0..7 and all ways `a`, `b` in 0..3 all three lookups are
inside the tables and `plru_bank[next_state[4*next_state[4*s + a] + b]]` is
different from both `a` and `b`. -/
theorem victim_not_last_two :
    ∀ s : Fin 8, ∀ a : Fin 4, ∀ b : Fin 4,
      4 * s.val + a.val < next_state.length ∧
      4 * next_state.getD (4 * s.val + a.val) 0 + b.val < next_state.length ∧
      next_state.getD (4 * next_state.getD (4 * s.val + a.val) 0 + b.val) 0 < plru_bank.length ∧
      plru_bank.getD (next_state.getD (4 * next_state.getD (4 * s.val + a.val) 0 + b.val) 0) 0
        ≠ a.val ∧
      plru_bank.getD (next_state.getD (4 * next_state.getD (4 * s.val + a.val) 0 + b.val) 0) 0
        ≠ b.val := by
  decide

/-- C18 (write-backs are bounded by writes): in every state reachable from
`cache_init` by a sequence of `cache_access` calls (of any length, so in
particular of fewer than `2^32` calls), `write_backs` plus the number of lines
currently dirty is at most the number of accesses in the sequence with
`type == 1`; in particular a trace consisting only of read accesses (type 0)
leaves `write_backs = 0` and no line dirty. -/
theorem write_backs_bounded (c0 : Cache) (tr : List (Nat × Nat)) :
    (run (cache_init c0) tr).write_backs + dirty_count (run (cache_init c0) tr)
      ≤ write_count tr ∧
    ((∀ p ∈ tr, p.2 = 0) →
      (run (cache_init c0) tr).write_backs = 0 ∧
      ∀ (w : Fin 4) (j : Fin LINES_PER_BANK), (run (cache_init c0) tr).dirty w j = 0) := by
  have h := dirty_run tr (cache_init c0)
  have h0 : (cache_init c0).write_backs + dirty_count (cache_init c0) = 0 := by
    rw [cache_init_eq, (empty_cache_counts 0 0 0).2]
    rfl
  have hb : (run (cache_init c0) tr).write_backs + dirty_count (run (cache_init c0) tr)
      ≤ write_count tr := by omega
  refine ⟨hb, ?_⟩
  intro hr
  have hw : write_count tr = 0 := by
    unfold write_count
    rw [List.length_eq_zero, List.filter_eq_nil_iff]
    intro p hp
    simp [hr p hp]
  refine ⟨by omega, ?_⟩
  intro w j
  exact count_set_eq_zero _ (by unfold dirty_count at hb; omega) w j

/-- Witness for C18: a trace of two reads from `cache_init` leaves no write-back
and no dirty line. -/
theorem write_backs_bounded_witness :
    (∀ p ∈ [((0 : Nat), (0 : Nat)), (256, 0)], p.2 = 0) ∧
      (run (cache_init (full_set0 1 2 3)) [(0, 0), (256, 0)]).write_backs = 0 :=
  ⟨by decide, ((write_backs_bounded (full_set0 1 2 3) [(0, 0), (256, 0)]).2 (by decide)).1⟩

/-- C19 (misses account for fills and evictions): in every state reachable
from `cache_init` by a sequence of fewer than `2^32` `cache_access` calls,
`write_backs` plus the number of lines currently valid (over all 4 ways and 32
sets) is at most `misses`, and `hits + misses` equals the number of accesses
made since `cache_init`. -/
theorem misses_account (c0 : Cache) (tr : List (Nat × Nat)) (h : tr.length < 2 ^ 32) :
    (run (cache_init c0) tr).write_backs + valid_count (run (cache_init c0) tr)
      ≤ (run (cache_init c0) tr).misses ∧
    (run (cache_init c0) tr).hits + (run (cache_init c0) tr).misses = tr.length := by
  have e := cache_init_eq c0
  have hc : (cache_init c0).hits = 0 ∧ (cache_init c0).misses = 0 ∧
      (cache_init c0).write_backs = 0 ∧ valid_count (cache_init c0) = 0 := by
    rw [e]
    exact ⟨rfl, rfl, rfl, (empty_cache_counts 0 0 0).1⟩
  obtain ⟨r1, r2⟩ := count_run tr (cache_init c0) (by omega)
  constructor <;> omega

/-- Witness for C19: the trace write(0), read(256), read(0) from `cache_init`. -/
theorem misses_account_witness :
    [((0 : Nat), (1 : Nat)), (256, 0), (0, 0)].length < 2 ^ 32 ∧
      (run (cache_init (full_set0 1 2 3)) [(0, 1), (256, 0), (0, 0)]).hits
        + (run (cache_init (full_set0 1 2 3)) [(0, 1), (256, 0), (0, 0)]).misses = 3 :=
  ⟨by decide, (misses_account (full_set0 1 2 3) [(0, 1), (256, 0), (0, 0)] (by decide)).2⟩

/-- C20 (valid ways form a prefix and are never invalidated): `cache_access`
never changes a valid bit from nonzero to 0, from any state; the predicate "if
way `k` of a set is valid then every way `j < k` of that set is valid" is
preserved by `cache_access`, and it holds in every state reachable from
`cache_init` by any sequence of `cache_access` calls. -/
theorem valid_prefix :
    (∀ (c : Cache) (a t : Nat) (w : Fin 4) (j : Fin LINES_PER_BANK),
      c.valid w j ≠ 0 → (cache_access c a t).valid w j ≠ 0) ∧
    (∀ (c : Cache) (a t : Nat),
      (∀ (j : Fin LINES_PER_BANK) (k w : Fin 4), c.valid k j ≠ 0 → w < k → c.valid w j ≠ 0) →
      ∀ (j : Fin LINES_PER_BANK) (k w : Fin 4),
        (cache_access c a t).valid k j ≠ 0 → w < k → (cache_access c a t).valid w j ≠ 0) ∧
    (∀ (c0 : Cache) (tr : List (Nat × Nat)) (j : Fin LINES_PER_BANK) (k w : Fin 4),
      (run (cache_init c0) tr).valid k j ≠ 0 → w < k →
        (run (cache_init c0) tr).valid w j ≠ 0) := by
  have mono : ∀ (c : Cache) (a t : Nat) (w : Fin 4) (j : Fin LINES_PER_BANK),
      c.valid w j ≠ 0 → (cache_access c a t).valid w j ≠ 0 := by
    intro c a t w j h
    rw [← rd2_fin c.valid w j] at h
    rw [← rd2_fin (cache_access c a t).valid w j]
    exact access_valid_mono c a t _ _ h
  have step : ∀ (c : Cache) (a t : Nat),
      (∀ (j : Fin LINES_PER_BANK) (k w : Fin 4), c.valid k j ≠ 0 → w < k → c.valid w j ≠ 0) →
      ∀ (j : Fin LINES_PER_BANK) (k w : Fin 4),
        (cache_access c a t).valid k j ≠ 0 → w < k → (cache_access c a t).valid w j ≠ 0 := by
    intro c a t inv j k w hk hwk
    by_cases hkc : c.valid k j ≠ 0
    · exact mono c a t w j (inv j k w hkc hwk)
    · -- way `k` was filled by this access
      rw [← rd2_fin (cache_access c a t).valid k j] at hk
      have hp : k.val = access_bank c a ∧ j.val = addr_index a := by
        by_contra hp
        rw [(access_frame c a t k.val j.val hp).1, rd2_fin] at hk
        exact hkc hk
      have hit : ¬ is_hit c a := by
        intro hit
        have := (probe_hit c a hit).2.2.1.1
        rw [← hp.1, ← hp.2, rd2_fin] at this
        exact hkc this
      have hinv : ∃ v, v < 4 ∧ rd2 c.valid v (addr_index a) = 0 :=
        ⟨k.val, k.isLt, by rw [← hp.2, rd2_fin]; exact not_not.mp hkc⟩
      have hlow := (replacement_bank_invalid c (addr_index a) hinv).2 w.val
        (by rw [← access_bank_miss c a hit, ← hp.1]; exact hwk)
      rw [← hp.2, rd2_fin] at hlow
      exact mono c a t w j hlow
  refine ⟨mono, step, ?_⟩
  intro c0 tr
  refine run_invariant
    (fun c => ∀ (j : Fin LINES_PER_BANK) (k w : Fin 4), c.valid k j ≠ 0 → w < k →
      c.valid w j ≠ 0)
    step tr (cache_init c0) ?_
  rw [cache_init_eq]
  intro j k w h
  exact absurd rfl h

/-- Witness for C20: in the cache reached from the empty one by two fills of
set 0 (ways 0 and 1 valid, ways 2 and 3 invalid) a read of a third tag fills
way 2, and in the full set 0 a read of a new tag replaces a way; in both the
valid ways still form a prefix, here with way 2 (and way 3) valid above valid
lower ways. -/
theorem valid_prefix_witness :
    ((run (empty_cache 0 0 0) [(0, 0), (256, 0)]).valid 1 0 ≠ 0 ∧
      (run (empty_cache 0 0 0) [(0, 0), (256, 0)]).valid 2 0 = 0) ∧
    (∀ (j : Fin LINES_PER_BANK) (k w : Fin 4),
      (run (empty_cache 0 0 0) [(0, 0), (256, 0)]).valid k j ≠ 0 → w < k →
        (run (empty_cache 0 0 0) [(0, 0), (256, 0)]).valid w j ≠ 0) ∧
    (cache_access (run (empty_cache 0 0 0) [(0, 0), (256, 0)]) 512 0).valid 2 0 ≠ 0 ∧
    (∀ (j : Fin LINES_PER_BANK) (k w : Fin 4),
      (cache_access (run (empty_cache 0 0 0) [(0, 0), (256, 0)]) 512 0).valid k j ≠ 0 → w < k →
        (cache_access (run (empty_cache 0 0 0) [(0, 0), (256, 0)]) 512 0).valid w j ≠ 0) ∧
    (full_set0 0 0 0).valid 3 0 ≠ 0 ∧
    (∀ (j : Fin LINES_PER_BANK) (k w : Fin 4),
      (cache_access (full_set0 0 0 0) 0 0).valid k j ≠ 0 → w < k →
        (cache_access (full_set0 0 0 0) 0 0).valid w j ≠ 0) :=
  ⟨by decide, by decide, by decide,
    valid_prefix.2.1 (run (empty_cache 0 0 0) [(0, 0), (256, 0)]) 512 0 (by decide),
    by decide,
    valid_prefix.2.1 (full_set0 0 0 0) 0 0 (by decide)⟩

end CacheSim
